import Mathlib

/-!
Verification development for the PhotoFiler media-organization scripts.

The Python sources are shallowly embedded: filenames are `String`s,
directory listings are `List String`, timestamps are a `DateTime` record of
naturals, and filesystem mutation is modelled as an explicit trace of
`FsOp` actions together with explicit state passing.  Each definition
mirrors one Python function, named after it where Lean allows.
-/

namespace PF

/-! ### Basic string helpers -/

/-- Python `str.lower()` restricted to ASCII case folding (all strings the
scripts compare are ASCII). -/
def toLowerStr (s : String) : String := ⟨s.data.map Char.toLower⟩

/-- Index of the last occurrence of `c` in `cs`, if any. -/
def lastIdxOf (c : Char) : List Char → Option Nat
  | [] => none
  | x :: xs =>
    match lastIdxOf c xs with
    | some i => some (i + 1)
    | none => if x = c then some 0 else none

/-- `pathlib.Path(name).stem` / `.suffix`: split at the last dot provided it
is neither the leading character nor the final character; otherwise the
suffix is empty.  Returns `(stem, suffix-with-dot)`. -/
def splitName (name : String) : String × String :=
  let cs := name.data
  match lastIdxOf '.' cs with
  | some i =>
    if 0 < i ∧ i < cs.length - 1 then (⟨cs.take i⟩, ⟨cs.drop i⟩) else (name, "")
  | none => (name, "")

def stemOf (name : String) : String := (splitName name).1

def suffixOf (name : String) : String := (splitName name).2

/-- Lower-cased pathlib suffix, the form every extension test in the
sources uses (`path.suffix.lower()`). -/
def suffixLower (name : String) : String := toLowerStr (suffixOf name)

/-- Python `name.rsplit('.', 1)`: split at the last dot, extension without
the dot.  (The sources only call it on names that contain a dot; a dotless
name is returned unsplit here.) -/
def rsplitDot (name : String) : String × String :=
  match lastIdxOf '.' name.data with
  | some i => (⟨name.data.take i⟩, ⟨name.data.drop (i + 1)⟩)
  | none => (name, "")

/-- Python `date_str.replace("-", "")` as used by `ensure_folder`. -/
def stripDashes (s : String) : String := ⟨s.data.filter (fun c => c ≠ '-')⟩

def isAsciiDigit (c : Char) : Bool := '0' ≤ c ∧ c ≤ '9'

/-- Value of a decimal digit character. -/
def digitVal (c : Char) : Nat := c.toNat - 48

/-- Decimal value of a digit string (most significant first). -/
def digitsVal (cs : List Char) : Nat := cs.foldl (fun a c => a * 10 + digitVal c) 0

/-! ### Decimal rendering of naturals

The collision resolvers build candidate names with Python f-strings such as
`f"{stem}_{i}{suffix}"`; the embedding uses `Nat.repr`.  We prove `Nat.repr`
injective so that distinct counters give distinct candidate names. -/

theorem toDigitsCore_acc (f : Nat) :
    ∀ (n : Nat) (ds : List Char),
      Nat.toDigitsCore 10 f n ds = Nat.toDigitsCore 10 f n [] ++ ds := by
  induction f with
  | zero => intro n ds; rfl
  | succ f ih =>
    intro n ds
    simp only [Nat.toDigitsCore]
    by_cases h : n / 10 = 0
    · simp [h]
    · simp only [h, if_false]
      rw [ih (n / 10) (Nat.digitChar (n % 10) :: ds),
        ih (n / 10) [Nat.digitChar (n % 10)], List.append_assoc]
      rfl

theorem digitVal_digitChar : ∀ n < 10, digitVal (Nat.digitChar n) = n := by decide

theorem digitsVal_append_one (cs : List Char) (c : Char) :
    digitsVal (cs ++ [c]) = digitsVal cs * 10 + digitVal c := by
  simp [digitsVal, List.foldl_append]

theorem digitsVal_toDigitsCore :
    ∀ (f n : Nat), n < f → digitsVal (Nat.toDigitsCore 10 f n []) = n := by
  intro f
  induction f with
  | zero => intro n h; exact absurd h (Nat.not_lt_zero n)
  | succ f ih =>
    intro n h
    simp only [Nat.toDigitsCore]
    by_cases h0 : n / 10 = 0
    · have hn : n < 10 := (Nat.div_eq_zero_iff (by norm_num)).mp h0
      simp only [h0, if_true]
      have : digitsVal [Nat.digitChar (n % 10)] = digitVal (Nat.digitChar (n % 10)) := by
        simp [digitsVal]
      rw [this, digitVal_digitChar (n % 10) (Nat.mod_lt n (by norm_num))]
      exact Nat.mod_eq_of_lt hn
    · simp only [h0, if_false]
      rw [toDigitsCore_acc, digitsVal_append_one]
      have hlt : n / 10 < f := by
        have h10 : 10 ≤ n := by
          by_contra hc
          exact h0 (Nat.div_eq_zero_iff (by norm_num) |>.mpr (by omega))
        have := Nat.div_lt_self (by omega : 0 < n) (by norm_num : 1 < 10)
        omega
      rw [ih (n / 10) hlt, digitVal_digitChar (n % 10) (Nat.mod_lt n (by omega))]
      omega

theorem natRepr_inj {m n : Nat} (h : Nat.repr m = Nat.repr n) : m = n := by
  have hd : Nat.toDigits 10 m = Nat.toDigits 10 n := congrArg String.data h
  have hm := digitsVal_toDigitsCore (m + 1) m (Nat.lt_succ_self m)
  have hn := digitsVal_toDigitsCore (n + 1) n (Nat.lt_succ_self n)
  unfold Nat.toDigits at hd
  rw [hd] at hm
  rw [hm] at hn
  exact hn

/-! ### Timestamps

Naive local wall-clock timestamps, as used throughout the sources. -/

structure DateTime where
  year : Nat
  month : Nat
  day : Nat
  hour : Nat
  minute : Nat
  second : Nat
deriving DecidableEq, Repr

def isLeap (y : Nat) : Bool := (y % 4 = 0 ∧ y % 100 ≠ 0) ∨ y % 400 = 0

def daysInMonth (y m : Nat) : Nat :=
  if m = 2 then (if isLeap y then 29 else 28)
  else if m = 4 ∨ m = 6 ∨ m = 9 ∨ m = 11 then 30
  else 31

/-- Validity exactly as `datetime.strptime` / the `datetime` constructor
enforce it: real calendar date, 24h clock, seconds below 60. -/
def validDateTime (t : DateTime) : Bool :=
  1 ≤ t.year ∧ t.year ≤ 9999 ∧ 1 ≤ t.month ∧ t.month ≤ 12 ∧
    1 ≤ t.day ∧ t.day ≤ daysInMonth t.year t.month ∧
    t.hour < 24 ∧ t.minute < 60 ∧ t.second < 60

def pad2 (n : Nat) : String := if n < 10 then "0" ++ Nat.repr n else Nat.repr n

def pad4 (n : Nat) : String :=
  if n < 10 then "000" ++ Nat.repr n
  else if n < 100 then "00" ++ Nat.repr n
  else if n < 1000 then "0" ++ Nat.repr n
  else Nat.repr n

/-- `timestamp.strftime("%Y%m%d")`: the date-bucket folder name. -/
def fmtYmd (t : DateTime) : String := pad4 t.year ++ pad2 t.month ++ pad2 t.day

/-- `timestamp.strftime("%Y-%m-%d")` as `sort_media_by_date.process_file`
computes before `ensure_folder` strips the dashes again. -/
def fmtDashed (t : DateTime) : String :=
  pad4 t.year ++ "-" ++ pad2 t.month ++ "-" ++ pad2 t.day

/-- `timestamp.strftime("%Y%m%d_%H%M")`: the leading portion of every
composed descriptive filename. -/
def fmtYmdHm (t : DateTime) : String :=
  pad4 t.year ++ pad2 t.month ++ pad2 t.day ++ "_" ++ pad2 t.hour ++ pad2 t.minute

/-- `timestamp.isoformat(sep=' ', timespec='seconds')`. -/
def isoFmtSpace (t : DateTime) : String :=
  pad4 t.year ++ "-" ++ pad2 t.month ++ "-" ++ pad2 t.day ++ " " ++
    pad2 t.hour ++ ":" ++ pad2 t.minute ++ ":" ++ pad2 t.second

/-! ### Shared constants of `sort_media_by_date.py` -/

def INCLUDE_EXT : List String :=
  [".jpg", ".jpeg", ".png", ".heic", ".heif", ".mov", ".mp4", ".hevc", ".avi"]

def CONVERT_TO_JPG : List String := [".heic", ".heif"]

/-- The inline video-extension set of `process_file`. -/
def VIDEO_EXT : List String := [".mov", ".mp4", ".hevc", ".avi"]

def SKIP_DIR_NAMES : List String := ["@eaDir"]

def SKIP_FILE_NAMES : List String := [".DS_Store"]

def startsWithDot (name : String) : Bool :=
  match name.data with
  | c :: _ => c = '.'
  | [] => false

/-- `sort_media_by_date.is_hidden`. -/
def is_hidden (name : String) : Bool :=
  if name = "" then false
  else if startsWithDot name then true
  else name ∈ SKIP_DIR_NAMES ∨ name ∈ SKIP_FILE_NAMES

/-- `datetime.strptime(s, "%Y%m%d")` on an 8-character string. -/
def parseYmd (s : String) : Option DateTime :=
  match s.data with
  | [y1, y2, y3, y4, m1, m2, d1, d2] =>
    if ([y1, y2, y3, y4, m1, m2, d1, d2]).all isAsciiDigit then
      let t : DateTime :=
        ⟨digitsVal [y1, y2, y3, y4], digitsVal [m1, m2], digitsVal [d1, d2], 0, 0, 0⟩
      if validDateTime t then some t else none
    else none
  | _ => none

/-- `sort_media_by_date.is_valid_date_folder`. -/
def is_valid_date_folder (name : String) : Bool :=
  if name.length ≠ 8 ∨ ¬ name.data.all isAsciiDigit then false
  else (parseYmd name).isSome

/-! ### Collision resolution

`sort_media_by_date.resolve_collision`, the inline loops of
`master_photo_processor`, and `heic_converter.get_jpg_output_path` all
probe `<stem>_<i><ext>` for `i = 1, 2, …` until the name is absent from the
directory listing.  The unbounded `while True` loop is embedded as a fueled
search; fuel `|dir| + 1` always suffices (pigeonhole, using injectivity of
decimal rendering), so the fueled function agrees with the Python loop. -/

def candName (stem ext : String) (i : Nat) : String :=
  stem ++ "_" ++ Nat.repr i ++ ext

theorem candName_inj (stem ext : String) {i j : Nat}
    (h : candName stem ext i = candName stem ext j) : i = j := by
  have h' := congrArg String.data h
  simp only [candName, String.data_append] at h'
  have h2 : (Nat.repr i).data = (Nat.repr j).data :=
    List.append_cancel_left (List.append_cancel_right h')
  exact natRepr_inj (String.ext h2)

theorem exists_free_cand (dir : List String) (stem ext : String) (start : Nat) :
    ∃ k ≤ dir.length, candName stem ext (start + k) ∉ dir := by
  by_contra hall
  push_neg at hall
  have hinj : Function.Injective (fun k => candName stem ext (start + k)) := by
    intro a b hab
    have := candName_inj stem ext hab
    omega
  have hnd : ((List.range (dir.length + 1)).map
      (fun k => candName stem ext (start + k))).Nodup :=
    (List.nodup_range _).map hinj
  have hsub : ((List.range (dir.length + 1)).map
      (fun k => candName stem ext (start + k))) ⊆ dir := by
    intro x hx
    obtain ⟨k, hk, rfl⟩ := List.mem_map.mp hx
    exact hall k (by
      have := List.mem_range.mp hk
      omega)
  have hle := (List.subperm_of_subset hnd hsub).length_le
  simp at hle

def searchFree (dir : List String) (stem ext : String) : Nat → Nat → String
  | 0, i => candName stem ext i
  | fuel + 1, i =>
    if candName stem ext i ∈ dir then searchFree dir stem ext fuel (i + 1)
    else candName stem ext i

theorem searchFree_spec (dir : List String) (stem ext : String) :
    ∀ (fuel i : Nat), (∃ k ≤ fuel, candName stem ext (i + k) ∉ dir) →
      ∃ j, i ≤ j ∧ searchFree dir stem ext fuel i = candName stem ext j ∧
        candName stem ext j ∉ dir ∧
        ∀ m, i ≤ m → m < j → candName stem ext m ∈ dir := by
  intro fuel
  induction fuel with
  | zero =>
    rintro i ⟨k, hk, hfree⟩
    have hk0 : k = 0 := Nat.le_zero.mp hk
    subst hk0
    refine ⟨i, le_refl i, rfl, by simpa using hfree, ?_⟩
    intro m h1 h2
    omega
  | succ fuel ih =>
    rintro i ⟨k, hk, hfree⟩
    by_cases hmem : candName stem ext i ∈ dir
    · have hk0 : k ≠ 0 := by
        rintro rfl
        simp at hfree
        exact hfree hmem
      have harith : i + 1 + (k - 1) = i + k := by omega
      obtain ⟨j, hij, heq, hfree', hmin⟩ :=
        ih (i + 1) ⟨k - 1, by omega, by rw [harith]; exact hfree⟩
      refine ⟨j, by omega, ?_, hfree', ?_⟩
      · simp only [searchFree, hmem, if_true]
        exact heq
      · intro m h1 h2
        by_cases hm : m = i
        · exact hm ▸ hmem
        · exact hmin m (by omega) h2
    · exact ⟨i, le_refl i, by simp [searchFree, hmem], hmem, fun m h1 h2 => by omega⟩

/-- `sort_media_by_date.resolve_collision`: `dir` is the listing of entry
names in `target_dir` (what `candidate.exists()` probes). -/
def resolve_collision (dir : List String) (filename : String) : String :=
  if filename ∈ dir then
    searchFree dir (stemOf filename) (suffixOf filename) (dir.length + 1) 1
  else filename

/-- `heic_converter.get_jpg_output_path`: desired name is `<stem>.jpg`,
conflicts bump to `<stem>_<i>.jpg`. -/
def get_jpg_output_path (dir : List String) (heicName : String) : String :=
  if (stemOf heicName ++ ".jpg") ∈ dir then
    searchFree dir (stemOf heicName) ".jpg" (dir.length + 1) 1
  else stemOf heicName ++ ".jpg"

theorem resolve_collision_free (dir : List String) (filename : String) :
    resolve_collision dir filename ∉ dir := by
  unfold resolve_collision
  by_cases hmem : filename ∈ dir
  · simp only [hmem, if_true]
    obtain ⟨k, hk, hfree⟩ := exists_free_cand dir (stemOf filename) (suffixOf filename) 1
    obtain ⟨j, _, heq, hfree', _⟩ :=
      searchFree_spec dir (stemOf filename) (suffixOf filename) (dir.length + 1) 1
        ⟨k, by omega, hfree⟩
    rw [heq]
    exact hfree'
  · simp [hmem]

theorem get_jpg_output_path_free (dir : List String) (heicName : String) :
    get_jpg_output_path dir heicName ∉ dir := by
  unfold get_jpg_output_path
  by_cases hmem : (stemOf heicName ++ ".jpg") ∈ dir
  · simp only [hmem, if_true]
    obtain ⟨k, hk, hfree⟩ := exists_free_cand dir (stemOf heicName) ".jpg" 1
    obtain ⟨j, _, heq, hfree', _⟩ :=
      searchFree_spec dir (stemOf heicName) ".jpg" (dir.length + 1) 1
        ⟨k, by omega, hfree⟩
    rw [heq]
    exact hfree'
  · simp [hmem]

/-! ### Filename-embedded timestamps (`ai_photo_renamer.py`)

`extract_timestamp_from_filename` applies four fixed regular expressions in
order via `re.search`.  Every alternative has the rigid shape
«literal, 8 digits, literal, k digits», so matching is embedded directly:
`matchPatAt` matches one alternative at one position, `searchPat` scans for
the leftmost position (exactly what `re.search` returns for these
fixed-length patterns, which admit no backtracking). -/

structure FPat where
  pre : List Char
  mid : List Char
  tlen : Nat

def dropLit : List Char → List Char → Option (List Char)
  | [], cs => some cs
  | _ :: _, [] => none
  | l :: ls, c :: cs => if c = l then dropLit ls cs else none

def takeDigits : Nat → List Char → Option (List Char × List Char)
  | 0, cs => some ([], cs)
  | _ + 1, [] => none
  | n + 1, c :: cs =>
    if isAsciiDigit c then (takeDigits n cs).map (fun p => (c :: p.1, p.2)) else none

def matchPatAt (p : FPat) (cs : List Char) : Option (List Char × List Char) :=
  (dropLit p.pre cs).bind fun cs1 =>
  (takeDigits 8 cs1).bind fun dd =>
  (dropLit p.mid dd.2).bind fun cs3 =>
  (takeDigits p.tlen cs3).map fun tt => (dd.1, tt.1)

def searchPat (p : FPat) : List Char → Option (List Char × List Char)
  | [] => matchPatAt p []
  | c :: cs =>
    match matchPatAt p (c :: cs) with
    | some r => some r
    | none => searchPat p cs

/-- `r"PXL_(\d{8})_(\d{6})"`. -/
def patPXL : FPat := ⟨"PXL_".data, "_".data, 6⟩

/-- `r"IMG_(\d{8})_(\d{6})"`. -/
def patIMG : FPat := ⟨"IMG_".data, "_".data, 6⟩

/-- `r"(\d{8})_(\d{6})"`. -/
def patBare : FPat := ⟨[], "_".data, 6⟩

/-- `r"IMG-(\d{8})-WA(\d{4})"`. -/
def patWA : FPat := ⟨"IMG-".data, "-WA".data, 4⟩

/-- `time_str.ljust(6, '0')`: right-pad the 4-digit WhatsApp time. -/
def ljust6Zero (t : List Char) : List Char := t ++ List.replicate (6 - t.length) '0'

/-- `datetime.strptime(f"{date_str}_{time_str}", "%Y%m%d_%H%M%S")`,
`None` on `ValueError`. -/
def parseYmdHms (d t : List Char) : Option DateTime :=
  match d, t with
  | [y1, y2, y3, y4, m1, m2, d1, d2], [h1, h2, i1, i2, s1, s2] =>
    let dt : DateTime :=
      ⟨digitsVal [y1, y2, y3, y4], digitsVal [m1, m2], digitsVal [d1, d2],
        digitsVal [h1, h2], digitsVal [i1, i2], digitsVal [s1, s2]⟩
    if validDateTime dt then some dt else none
  | _, _ => none

/-- One iteration of the pattern loop: `re.search`, then `strptime`
(`isWA` selects the `ljust` branch taken when `"WA" in pattern`);
`none` makes the loop `continue` with the next pattern. -/
def tryPat (isWA : Bool) (p : FPat) (name : String) : Option DateTime :=
  match searchPat p name.data with
  | some dt => parseYmdHms dt.1 (if isWA then ljust6Zero dt.2 else dt.2)
  | none => none

/-- `ai_photo_renamer.extract_timestamp_from_filename`: first pattern that
matches and parses to a valid date wins; otherwise `None`. -/
def extract_timestamp_from_filename (name : String) : Option DateTime :=
  match tryPat false patPXL name with
  | some dt => some dt
  | none =>
    match tryPat false patIMG name with
    | some dt => some dt
    | none =>
      match tryPat false patBare name with
      | some dt => some dt
      | none => tryPat true patWA name

/-! ### Descriptive renaming (`ai_photo_renamer.generate_new_filename`) -/

/-- The analysis fields `generate_new_filename` reads. -/
structure Analysis where
  soil_color : String
  detected_objects : List String

def containsSubAux (pat : List Char) : List Char → Bool
  | [] => pat.isEmpty
  | c :: cs => (dropLit pat (c :: cs)).isSome || containsSubAux pat cs

/-- Python `pat in s` substring test. -/
def containsSub (s pat : String) : Bool := containsSubAux pat.data s.data

def splitWordsAux : List Char → List Char → List String
  | [], acc => if acc.isEmpty then [] else [⟨acc.reverse⟩]
  | c :: cs, acc =>
    if c = ' ' then
      if acc.isEmpty then splitWordsAux cs [] else ⟨acc.reverse⟩ :: splitWordsAux cs []
    else splitWordsAux cs (c :: acc)

/-- Python `str.split()` (the labels split here contain single spaces only). -/
def splitWords (s : String) : List String := splitWordsAux s.data []

/-- Python `"_".join`. -/
def joinUnderscore : List String → String
  | [] => ""
  | [s] => s
  | s :: rest => s ++ "_" ++ joinUnderscore rest

def keyWordSet : List String :=
  ["dirt", "soil", "clay", "sand", "ground", "work", "construction", "site"]

/-- The `elif` chain simplifying the top detected object. -/
def simplifyPrimary (primary : String) : String :=
  if containsSub primary "excavator" then "excavator"
  else if containsSub primary "bulldozer" then "bulldozer"
  else if containsSub primary "truck" then "truck"
  else if containsSub primary "pipe" then "pipe"
  else if containsSub primary "concrete" then "concrete"
  else if containsSub primary "excavation" then "excavation"
  else if containsSub primary "foundation" then "foundation"
  else if containsSub primary "compaction" then "compaction"
  else
    let kw := (splitWords primary).filter (fun w => w ∈ keyWordSet)
    if kw.isEmpty then "construction" else joinUnderscore (kw.take 2)

/-- `ai_photo_renamer.generate_new_filename`: timestamp argument wins over
the file's modify time; description built from soil color and the top
detection; fixed fallback `"site"`; extension is the lower-cased source
suffix. -/
def generate_new_filename (origName : String) (analysis : Analysis)
    (timestamp : Option DateTime) (mtime : DateTime) : String :=
  let dt := timestamp.getD mtime
  let parts :=
    (if analysis.soil_color ≠ "" then [analysis.soil_color] else []) ++
      (match analysis.detected_objects with
       | [] => []
       | p :: _ => [simplifyPrimary (toLowerStr p)])
  let parts := if parts.isEmpty then ["site"] else parts
  fmtYmdHm dt ++ "_" ++ joinUnderscore parts ++ suffixLower origName

/-! ### Master-pipeline timestamp resolution
(`master_photo_processor.PhotoProcessor.get_file_timestamp`) -/

/-- Per-file metadata the master pipeline consults.  `exifDTO` is the
parsed `DateTimeOriginal` EXIF field (already `none` when the field is
absent or fails `strptime`), `birth` the optional `st_birthtime`. -/
structure MFile where
  name : String
  exifDTO : Option DateTime
  birth : Option DateTime
  mtime : DateTime
deriving DecidableEq, Repr

/-- The inline extension set guarding the EXIF attempt in
`get_file_timestamp` — note it covers only JPEG and PNG. -/
def EXIF_READ_EXT : List String := [".jpg", ".jpeg", ".png"]

/-- `PhotoProcessor.get_file_timestamp`: EXIF `DateTimeOriginal` for
JPEG/PNG files, else `st_birthtime` falling back to `st_mtime`.  The
filename itself is never consulted. -/
def get_file_timestamp (f : MFile) : DateTime :=
  if suffixLower f.name ∈ EXIF_READ_EXT then
    match f.exifDTO with
    | some dt => dt
    | none => f.birth.getD f.mtime
  else f.birth.getD f.mtime

/-! ### Filesystem effects

Mutating filesystem calls are recorded as an explicit trace.  A dry run is
expected to produce an empty trace; the theorems below determine where the
code does and does not honour that. -/

/-- Outcome of an opaque encode-and-write (`PIL.Image.save` /
`shutil.copy2`): success, failure before the destination is created, or
failure after the destination was created but before it was completely
written (the encoder opens the destination first, so this can happen). -/
inductive ConvOutcome
  | ok
  | failClean
  | failIncomplete
deriving DecidableEq, Repr

inductive FsOp
  | createDir (path : String)
  | removeTree (path : String)
  | createFile (path : String)
  | createIncomplete (path : String)
  | deleteFile (path : String)
  | moveFile (src dst : String)
  | copyFile (src dst : String)
  | removeDir (path : String)
deriving DecidableEq, Repr

/-! ### The tree model for `sort_media_by_date.py`

The batch root holds loose files and top-level subdirectories; a
subdirectory holds directly contained files plus a count of entries that
are not files (nested directories), which only matters for the emptiness
check before `rmdir`. -/

structure SubDir where
  name : String
  files : List String
  nonFileEntries : Nat
deriving DecidableEq, Repr

structure RootState where
  rootFiles : List String
  dirs : List SubDir
deriving DecidableEq, Repr

/-- `sort_media_by_date.LogRecord`. -/
structure LogRecord where
  original_path : String
  new_path : String
  method : String
  timestamp_used : String
deriving DecidableEq, Repr

def rootPath (f : String) : String := "root/" ++ f

def dirPath (d f : String) : String := "root/" ++ d ++ "/" ++ f

/-- Everything `candidate.exists()` can see directly in the batch root:
loose files and the present subdirectories. -/
def rootEntryNames (st : RootState) : List String :=
  st.rootFiles ++ st.dirs.map (fun d => d.name)

/-- A file is moved by consolidation / enumerated by `iter_media_files`
iff it is a non-hidden file with a recognised media extension. -/
def eligibleMedia (f : String) : Bool :=
  ¬ is_hidden f ∧ suffixLower f ∈ INCLUDE_EXT

/-- `sort_media_by_date.iter_media_files` (root directory only). -/
def iter_media_files (st : RootState) : List String :=
  st.rootFiles.filter eligibleMedia

/-! #### Phase 1: `consolidate_from_invalid_folders` -/

/-- The inner loop of `consolidate_from_invalid_folders` draining one
invalid folder: walks the folder's direct files, moving each eligible one
to the batch root under a collision-resolved name.  Returns the files left
behind, the updated root file list, and the log records.  `dirNames` is
the list of subdirectory names currently present in the root (they are
also visible to `candidate.exists()`); in a dry run `move_or_log` is a
no-op, so the file stays put and the root listing does not grow. -/
def drainFiles (dryRun : Bool) (dName : String) :
    List String → List String → List String →
    List String × List String × List LogRecord
  | rootFiles, _, [] => ([], rootFiles, [])
  | rootFiles, dirNames, f :: fs =>
    if ¬ eligibleMedia f then
      let r := drainFiles dryRun dName rootFiles dirNames fs
      (f :: r.1, r.2.1, r.2.2)
    else
      let dst := resolve_collision (rootFiles ++ dirNames) f
      let rec0 : LogRecord :=
        ⟨dirPath dName f, rootPath dst, "CONSOLIDATE",
          "moved from invalid folder: " ++ dName⟩
      if dryRun then
        let r := drainFiles dryRun dName rootFiles dirNames fs
        (f :: r.1, r.2.1, rec0 :: r.2.2)
      else
        let r := drainFiles dryRun dName (rootFiles ++ [dst]) dirNames fs
        (r.1, r.2.1, rec0 :: r.2.2)

/-- Processing of one top-level subdirectory by Phase 1: hidden and
valid-date folders are left alone; any other folder is drained, and then
removed (with a `REMOVE_FOLDER` record) only in a live run and only if
nothing remains inside.  Returns the updated root files, updated list of
present directory names, the surviving directory (if any) and records. -/
def consolidateOne (dryRun : Bool) (rootFiles dirNames : List String) (d : SubDir) :
    List String × List String × Option SubDir × List LogRecord :=
  if is_hidden d.name then (rootFiles, dirNames, some d, [])
  else if is_valid_date_folder d.name then (rootFiles, dirNames, some d, [])
  else
    let r := drainFiles dryRun d.name rootFiles dirNames d.files
    if ¬ dryRun ∧ r.1.isEmpty ∧ d.nonFileEntries = 0 then
      (r.2.1, dirNames.erase d.name, none,
        r.2.2 ++ [⟨"root/" ++ d.name, "", "REMOVE_FOLDER", "removed empty invalid folder"⟩])
    else
      (r.2.1, dirNames, some { d with files := r.1 }, r.2.2)

def consolidateDirs (dryRun : Bool) :
    List SubDir → List String → List String →
    List String × List SubDir × List LogRecord
  | [], rootFiles, _ => (rootFiles, [], [])
  | d :: ds, rootFiles, dirNames =>
    let r := consolidateOne dryRun rootFiles dirNames d
    let rest := consolidateDirs dryRun ds r.1 r.2.1
    (rest.1,
      (match r.2.2.1 with
       | some d' => d' :: rest.2.1
       | none => rest.2.1),
      r.2.2.2 ++ rest.2.2)

/-- `sort_media_by_date.consolidate_from_invalid_folders` over the whole
root (iterating the snapshot of top-level subdirectories). -/
def consolidate_from_invalid_folders (dryRun : Bool) (st : RootState) :
    RootState × List LogRecord :=
  let r := consolidateDirs dryRun st.dirs st.rootFiles (st.dirs.map (fun d => d.name))
  (⟨r.1, r.2.1⟩, r.2.2)

/-! #### Phase 2: `process_file` -/

/-- `sort_media_by_date.ensure_folder`: strip the dashes from the
`%Y-%m-%d` string and `mkdir(exist_ok=True)` the date folder — note this
runs regardless of the dry-run flag.  Returns the folder name, the updated
directory list and the trace. -/
def ensure_folder (dirs : List SubDir) (dateStr : String) :
    String × List SubDir × List FsOp :=
  let clean := stripDashes dateStr
  match dirs.find? (fun d => d.name = clean) with
  | some _ => (clean, dirs, [])
  | none => (clean, dirs ++ [⟨clean, [], 0⟩], [FsOp.createDir ("root/" ++ clean)])

/-- Appending a freshly placed file to the date bucket of the given name. -/
def addToBucket (dirs : List SubDir) (name fname : String) : List SubDir :=
  dirs.map (fun d => if d.name = name then { d with files := d.files ++ [fname] } else d)


/-- Filesystem metadata of one root file, as `process_file` reads it. -/
structure FMeta where
  size : Nat
  exifDTO : Option DateTime
  birth : Option DateTime
  mtime : DateTime
deriving DecidableEq, Repr

/-- The second half of `sort_media_by_date.process_file` (source lines
314–342): timestamp resolution on the current file, `ensure_folder`,
collision resolution inside the date bucket, `move_or_log` and the log
record.  `st1` is the root state after the HEIC step, `current` the file
being processed, `curMeta` its metadata and `converted` whether the HEIC
conversion succeeded. -/
def process_file_rest (dryRun : Bool) (st1 : RootState) (fname current : String)
    (curMeta : FMeta) (converted : Bool) : RootState × LogRecord × List FsOp :=
  let isVid := suffixLower current ∈ VIDEO_EXT
  let tsMeth : DateTime × String :=
    match (if isVid then none else curMeta.exifDTO) with
    | some dt => (dt, "EXIF")
    | none =>
      match curMeta.birth with
      | some b => (b, "BIRTH")
      | none => (curMeta.mtime, "MTIME")
  let ts := tsMeth.1
  let meth := tsMeth.2
  let step4 := ensure_folder st1.dirs (fmtDashed ts)
  let clean := step4.1
  let dirs2 := step4.2.1
  let ops2 := step4.2.2
  let bucketFiles := ((dirs2.find? (fun d => d.name = clean)).map SubDir.files).getD []
  let dst := resolve_collision bucketFiles current
  let step6 : RootState × List FsOp :=
    if dryRun then ({ st1 with dirs := dirs2 }, [])
    else
      (⟨st1.rootFiles.erase current, addToBucket dirs2 clean dst⟩,
        [FsOp.moveFile (rootPath current) (dirPath clean dst)])
  let rec0 : LogRecord :=
    ⟨rootPath fname, dirPath clean dst,
      (if converted then meth ++ "_CONVERTED" else meth), isoFmtSpace ts⟩
  (step6.1, rec0, ops2 ++ step6.2)

/-- `sort_media_by_date.process_file` on one root file.

`m` is the file's metadata; `conv` the outcome of the opaque HEIC encoder
if it is invoked; `convBirth`/`convMtime` the filesystem times a freshly
written converted file gets.  Note the source calls `convert_heic_to_jpg`
regardless of `DRY_RUN` (only the `unlink` of the original and the final
move are guarded), and `ensure_folder` creates the date folder regardless
of `DRY_RUN` as well. -/
def process_file (dryRun : Bool) (st : RootState) (fname : String) (m : FMeta)
    (conv : ConvOutcome) (convBirth : Option DateTime) (convMtime : DateTime) :
    RootState × LogRecord × List FsOp :=
  if m.size = 0 then (st, ⟨rootPath fname, "", "SKIP", "zero-bytes"⟩, [])
  else
    let heic := suffixLower fname ∈ CONVERT_TO_JPG
    let jpgName := get_jpg_output_path (rootEntryNames st) fname
    let step1 : RootState × List FsOp × String × FMeta × Bool :=
      if heic then
        match conv with
        | ConvOutcome.ok =>
          if dryRun then
            ({ st with rootFiles := st.rootFiles ++ [jpgName] },
              [FsOp.createFile (rootPath jpgName)], jpgName,
              ⟨m.size, m.exifDTO, convBirth, convMtime⟩, true)
          else
            ({ st with rootFiles := (st.rootFiles ++ [jpgName]).erase fname },
              [FsOp.createFile (rootPath jpgName), FsOp.deleteFile (rootPath fname)],
              jpgName, ⟨m.size, m.exifDTO, convBirth, convMtime⟩, true)
        | ConvOutcome.failClean => (st, [], fname, m, false)
        | ConvOutcome.failIncomplete =>
          ({ st with rootFiles := st.rootFiles ++ [jpgName] },
            [FsOp.createIncomplete (rootPath jpgName)], fname, m, false)
      else (st, [], fname, m, false)
    let r := process_file_rest dryRun step1.1 fname step1.2.2.1 step1.2.2.2.1
      step1.2.2.2.2
    (r.1, r.2.1, step1.2.1 ++ r.2.2)

/-- The Phase 2 loop of `sort_media_by_date.main` over the snapshot of
root media files, with per-file metadata and codec outcomes supplied by
the environment functions. -/
def phase2 (dryRun : Bool) (metaOf : String → FMeta) (convOf : String → ConvOutcome)
    (convBirthOf : String → Option DateTime) (convMtimeOf : String → DateTime) :
    RootState → List String → RootState × List LogRecord × List FsOp
  | st, [] => (st, [], [])
  | st, f :: fs =>
    let r := process_file dryRun st f (metaOf f) (convOf f) (convBirthOf f) (convMtimeOf f)
    let rest := phase2 dryRun metaOf convOf convBirthOf convMtimeOf r.1 fs
    (rest.1, r.2.1 :: rest.2.1, r.2.2 ++ rest.2.2)

/-- One whole run of `sort_media_by_date.main`: Phase 1 consolidation,
then Phase 2 over the snapshot taken by `list(iter_media_files(root))`. -/
def sortRun (dryRun : Bool) (metaOf : String → FMeta) (convOf : String → ConvOutcome)
    (convBirthOf : String → Option DateTime) (convMtimeOf : String → DateTime)
    (st : RootState) : RootState × List LogRecord × List FsOp :=
  let c := consolidate_from_invalid_folders dryRun st
  let files := iter_media_files c.1
  let p := phase2 dryRun metaOf convOf convBirthOf convMtimeOf c.1 files
  (p.1, c.2 ++ p.2.1, p.2.2)

/-- `sort_media_by_date.move_or_log`: a dry run performs nothing; a live
run moves the file (the destination's parent already exists in every call
site, created by `ensure_folder`). -/
def move_or_log_ops (dryRun : Bool) (src dst : String) : List FsOp :=
  if dryRun then [] else [FsOp.moveFile src dst]

/-! ### Content tagging (`master_photo_processor.py`) -/

/-- Pixel-count ratios of the fixed HSV bands computed by
`PhotoProcessor._color_tags` (each is `countNonZero(mask) / total`,
idealised as a rational). -/
structure ColorRatios where
  yellow : ℚ
  orange : ℚ
  blue : ℚ
  green : ℚ
  red1 : ℚ
  red2 : ℚ
deriving DecidableEq

/-- The fixed `> 0.02` threshold of `_color_tags`. -/
def colorThreshold : ℚ := 1 / 50

/-- `PhotoProcessor._color_tags`: one label per band whose ratio exceeds
the threshold, in band declaration order; the two red hue bands are
summed. -/
def color_tags (r : ColorRatios) : List String :=
  (if r.yellow > colorThreshold then ["yellow_trench_protection"] else []) ++
    (if r.orange > colorThreshold then ["orange_conduit"] else []) ++
      (if r.blue > colorThreshold then ["blue_water_pipe"] else []) ++
        (if r.green > colorThreshold then ["green_sewer_pipe"] else []) ++
          (if r.red1 + r.red2 > colorThreshold then ["red_electrical_marker"] else [])

/-- `tag.replace(" ", "_").replace("/", "_")`. -/
def normalizeTag (s : String) : String :=
  ⟨s.data.map (fun c => if c = ' ' ∨ c = '/' then '_' else c)⟩

def dedupAppend (acc : List String) (t : String) : List String :=
  if t ∈ acc then acc else acc ++ [t]

/-- The `clip_tags` loop of `analyze_photo_content`: normalise the
category label at each ranked index, dropping duplicates.  The indices are
the `topk` result, always non-empty and in range in the source. -/
def clip_tags_from (categories : List String) (idxs : List Nat) : List String :=
  idxs.foldl (fun acc i => dedupAppend acc (normalizeTag (categories.getD i ""))) []

/-- The merge loop of `analyze_photo_content`: append unseen tags, stop as
soon as three are collected. -/
def mergeTags : List String → List String → List String
  | acc, [] => acc
  | acc, t :: ts =>
    let acc' := if t ∈ acc then acc else acc ++ [t]
    if 3 ≤ acc'.length then acc' else mergeTags acc' ts

/-- `PhotoProcessor.analyze_photo_content`, producing the `tags` field:
colour heuristics always run; without a loaded classifier (or when the
classifier pass raises) the colour tags alone are used with fixed fallback
`"construction"`; otherwise colour tags are merged with the ranked CLIP
tags, capped at three. -/
def analyze_photo_content (aiAvailable : Bool) (r : ColorRatios) (clipOk : Bool)
    (categories : List String) (topIdxs : List Nat) : List String :=
  let color := color_tags r
  if ¬ aiAvailable then (if color.isEmpty then ["construction"] else color).take 3
  else if ¬ clipOk then (if color.isEmpty then ["construction"] else color).take 3
  else mergeTags [] (color ++ clip_tags_from categories topIdxs)

/-! ### Filename composition and format choice (`master_photo_processor.py`) -/

/-- `PhotoProcessor._normalize_target_format`. -/
def normalize_target_format (s : String) : Option String :=
  let fmt := toLowerStr (if s = "" then "auto" else s)
  if fmt = "auto" ∨ fmt = "source" ∨ fmt = "original" ∨ fmt = "" then none
  else if fmt = "jpg" ∨ fmt = "jpeg" then some ".jpg"
  else if fmt = "png" then some ".png"
  else none

def IMAGE_EXT : List String := [".jpg", ".jpeg", ".png", ".heic", ".heif"]

/-- `PhotoProcessor.generate_descriptive_filename`.  `tags` is the `tags`
field of the analysis; when it is empty the analysis `description` is
necessarily the fallback `"construction"` (see `analyze_photo_content`),
which is inlined here. -/
def generate_descriptive_filename (origName : String) (ts : DateTime)
    (tags : List String) (targetExt : Option String) : String :=
  let description := if tags.isEmpty then "construction" else joinUnderscore (tags.take 3)
  let suf := suffixLower origName
  let fallbackExt :=
    if suf ∈ CONVERT_TO_JPG then ".jpg" else if suf = "" then ".jpg" else suf
  let isImage := suf ∈ IMAGE_EXT
  let ext :=
    match targetExt with
    | some t => if isImage then t else fallbackExt
    | none => fallbackExt
  fmtYmdHm ts ++ "_" ++ description ++ ext

/-! ### The master per-file pipeline (`PhotoProcessor.process_single_photo`) -/

def tempDirPath : String := "/tmp/photo_processing"

def tempPath (f : String) : String := tempDirPath ++ "/" ++ f

def bucketPath (d f : String) : String := tempDirPath ++ "/" ++ d ++ "/" ++ f

def inputPath (f : String) : String := "input/" ++ f

/-- `PhotoProcessor.setup_temp_directory`: the body never consults
`self.dry_run` — an existing temp tree is deleted and a fresh directory is
created unconditionally. -/
def setup_temp_directory (dryRun : Bool) (tempExists : Bool) : List FsOp :=
  match dryRun with
  | true | false =>
    (if tempExists then [FsOp.removeTree tempDirPath] else []) ++
      [FsOp.createDir tempDirPath]

/-- `timestamp.isoformat()` (default `T` separator). -/
def isoFmtT (t : DateTime) : String :=
  pad4 t.year ++ "-" ++ pad2 t.month ++ "-" ++ pad2 t.day ++ "T" ++
    pad2 t.hour ++ ":" ++ pad2 t.minute ++ ":" ++ pad2 t.second

/-- The inline conflict loop of `process_single_photo` (lines 461–466) and
of `copy_to_final_destination` (lines 516–520): probe the desired name,
then `<base>_<counter>.<ext>` with the extension split at the last dot. -/
def bumpName (existing : List String) (fname : String) : String :=
  if fname ∈ existing then
    searchFree existing (rsplitDot fname).1 ("." ++ (rsplitDot fname).2)
      (existing.length + 1) 1
  else fname

/-- The result dictionary of `process_single_photo`. -/
structure PspResult where
  original_path : String
  final_path : String
  timestamp : String
  converted : Bool
  analyzed : Bool
  success : Bool
  error : String
deriving DecidableEq, Repr

/-- `PhotoProcessor.process_single_photo`.

`temp` models the temp processing tree (loose converted files at its root,
date buckets as subdirectories).  `heicOk` is the outcome of the opaque
HEIC encoder, `fmtConv` the outcome of `convert_image_format` when a
target-format conversion is required.  In a dry run the original HEIC file
is analysed in place and nothing is written; in a live run a converted
file carries the original's EXIF block but fresh filesystem times. -/
def process_single_photo (dryRun : Bool) (temp : RootState) (photo : MFile)
    (heicOk : Bool) (convBirth : Option DateTime) (convMtime : DateTime)
    (tags : List String) (targetExt : Option String) (fmtConv : ConvOutcome) :
    PspResult × RootState × List FsOp :=
  let heic := suffixLower photo.name ∈ CONVERT_TO_JPG
  let jpgName := get_jpg_output_path (rootEntryNames temp) photo.name
  let step1 : RootState × MFile × String × Bool × List FsOp :=
    if heic then
      if dryRun then (temp, photo, inputPath photo.name, true, [])
      else if heicOk then
        ({ temp with rootFiles := temp.rootFiles ++ [jpgName] },
          ⟨jpgName, photo.exifDTO, convBirth, convMtime⟩, tempPath jpgName, true,
          [FsOp.createFile (tempPath jpgName)])
      else (temp, photo, inputPath photo.name, false, [])
    else (temp, photo, inputPath photo.name, false, [])
  let temp1 := step1.1
  let current := step1.2.1
  let currentPath := step1.2.2.1
  let converted1 := step1.2.2.2.1
  let ops1 := step1.2.2.2.2
  let ts := get_file_timestamp current
  let newFilename := generate_descriptive_filename photo.name ts tags targetExt
  let dateFolder := fmtYmd ts
  let bucketFiles :=
    ((temp1.dirs.find? (fun d => d.name = dateFolder)).map SubDir.files).getD []
  let finalName := bumpName bucketFiles newFilename
  let finalPath := bucketPath dateFolder finalName
  let convertedFinal := converted1 ∨ suffixLower finalName ≠ suffixLower photo.name
  if dryRun then
    (⟨inputPath photo.name, finalPath, isoFmtT ts, convertedFinal, true, true, ""⟩,
      temp1, ops1)
  else
    let bucketMissing := (temp1.dirs.find? (fun d => d.name = dateFolder)).isNone
    let mkOps :=
      if bucketMissing then [FsOp.createDir (tempDirPath ++ "/" ++ dateFolder)] else []
    let dirs2 := if bucketMissing then temp1.dirs ++ [⟨dateFolder, [], 0⟩] else temp1.dirs
    if targetExt.isSome ∧ suffixLower finalName ≠ suffixLower current.name then
      match fmtConv with
      | ConvOutcome.ok =>
        (⟨inputPath photo.name, finalPath, isoFmtT ts, convertedFinal, true, true, ""⟩,
          ⟨temp1.rootFiles, addToBucket dirs2 dateFolder finalName⟩,
          ops1 ++ mkOps ++ [FsOp.createFile finalPath])
      | ConvOutcome.failClean =>
        (⟨inputPath photo.name, "", isoFmtT ts, convertedFinal, true, false,
            "Failed to convert " ++ photo.name⟩,
          ⟨temp1.rootFiles, dirs2⟩, ops1 ++ mkOps)
      | ConvOutcome.failIncomplete =>
        (⟨inputPath photo.name, "", isoFmtT ts, convertedFinal, true, false,
            "Failed to convert " ++ photo.name⟩,
          ⟨temp1.rootFiles, addToBucket dirs2 dateFolder finalName⟩,
          ops1 ++ mkOps ++ [FsOp.createIncomplete finalPath])
    else
      if currentPath = finalPath then
        (⟨inputPath photo.name, finalPath, isoFmtT ts, convertedFinal, true, true, ""⟩,
          ⟨temp1.rootFiles, dirs2⟩, ops1 ++ mkOps)
      else
        (⟨inputPath photo.name, finalPath, isoFmtT ts, convertedFinal, true, true, ""⟩,
          ⟨temp1.rootFiles, addToBucket dirs2 dateFolder finalName⟩,
          ops1 ++ mkOps ++ [FsOp.copyFile currentPath finalPath])

/-- Per-file inputs for the master loop. -/
structure PspInput where
  photo : MFile
  heicOk : Bool
  convBirth : Option DateTime
  convMtime : DateTime
  tags : List String
  fmtConv : ConvOutcome

/-- The per-photo loop of `PhotoProcessor.run` threading the temp tree. -/
def masterRun (dryRun : Bool) (targetExt : Option String) :
    RootState → List PspInput → RootState × List PspResult × List FsOp
  | temp, [] => (temp, [], [])
  | temp, i :: is =>
    let r := process_single_photo dryRun temp i.photo i.heicOk i.convBirth
      i.convMtime i.tags targetExt i.fmtConv
    let rest := masterRun dryRun targetExt r.2.1 is
    (rest.1, r.1 :: rest.2.1, r.2.2 ++ rest.2.2)

/-- The merge branch of `PhotoProcessor.copy_to_final_destination`
(lines 510–521): each file of a temp date folder is copied into the
existing destination folder under a conflict-bumped name.  Returns the
performed copies and the final destination listing. -/
def copy_merge_files (destFiles : List String) :
    List String → List (String × String) × List String
  | [] => ([], destFiles)
  | f :: fs =>
    let dst := bumpName destFiles f
    let r := copy_merge_files (destFiles ++ [dst]) fs
    ((f, dst) :: r.1, r.2)

/-- `master_photo_processor.MEDIA_EXT`. -/
def MEDIA_EXT : List String := [".jpg", ".jpeg", ".png", ".heic", ".heif", ".mov", ".mp4"]

/-! ## Claims -/

theorem searchFree_min (dir : List String) (stem ext : String) :
    ∃ i, 1 ≤ i ∧ searchFree dir stem ext (dir.length + 1) 1 = candName stem ext i ∧
      candName stem ext i ∉ dir ∧ ∀ j, 1 ≤ j → j < i → candName stem ext j ∈ dir := by
  obtain ⟨k, hk, hfree⟩ := exists_free_cand dir stem ext 1
  obtain ⟨j, h1j, heq, hfree', hmin⟩ :=
    searchFree_spec dir stem ext (dir.length + 1) 1 ⟨k, by omega, hfree⟩
  exact ⟨j, h1j, heq, hfree', hmin⟩

/-- C5: the collision resolver returns the desired name itself when no
entry with that name exists in the directory, and otherwise
`<stem>_<i><ext>` for the smallest positive `i` whose name is absent; the
returned name never exists in the listing at the time of the check.  Both
`resolve_collision` and `heic_converter.get_jpg_output_path` (desired name
`<stem>.jpg`) are pure functions of the listing, so the result is
deterministic and no state is retained across calls. -/
theorem C5_collision_resolver_contract (dir : List String) (filename heicName : String) :
    (filename ∉ dir → resolve_collision dir filename = filename) ∧
    (filename ∈ dir →
      ∃ i, 1 ≤ i ∧
        resolve_collision dir filename = candName (stemOf filename) (suffixOf filename) i ∧
        candName (stemOf filename) (suffixOf filename) i ∉ dir ∧
        ∀ j, 1 ≤ j → j < i → candName (stemOf filename) (suffixOf filename) j ∈ dir) ∧
    resolve_collision dir filename ∉ dir ∧
    ((stemOf heicName ++ ".jpg") ∉ dir →
      get_jpg_output_path dir heicName = stemOf heicName ++ ".jpg") ∧
    ((stemOf heicName ++ ".jpg") ∈ dir →
      ∃ i, 1 ≤ i ∧ get_jpg_output_path dir heicName = candName (stemOf heicName) ".jpg" i ∧
        candName (stemOf heicName) ".jpg" i ∉ dir ∧
        ∀ j, 1 ≤ j → j < i → candName (stemOf heicName) ".jpg" j ∈ dir) ∧
    get_jpg_output_path dir heicName ∉ dir := by
  refine ⟨?_, ?_, resolve_collision_free dir filename, ?_, ?_,
    get_jpg_output_path_free dir heicName⟩
  · intro h; simp [resolve_collision, h]
  · intro h
    simp only [resolve_collision, h, if_true]
    exact searchFree_min dir _ _
  · intro h; simp [get_jpg_output_path, h]
  · intro h
    simp only [get_jpg_output_path, h, if_true]
    exact searchFree_min dir _ _

theorem C5_collision_resolver_contract_witness :
    ("a.jpg" ∈ (["a.jpg", "a_1.jpg"] : List String)) ∧
    resolve_collision ["a.jpg", "a_1.jpg"] "a.jpg" ∉ (["a.jpg", "a_1.jpg"] : List String) ∧
    resolve_collision ["b.jpg"] "a.jpg" = "a.jpg" ∧
    get_jpg_output_path ["x.jpg"] "x.heic" ∉ (["x.jpg"] : List String) :=
  ⟨by decide,
    (C5_collision_resolver_contract ["a.jpg", "a_1.jpg"] "a.jpg" "x.heic").2.2.1,
    (C5_collision_resolver_contract ["b.jpg"] "a.jpg" "x.heic").1 (by decide),
    (C5_collision_resolver_contract ["x.jpg"] "a.jpg" "x.heic").2.2.2.2.2⟩

/-- C9: a zero-byte media file is answered with a `SKIP` / `zero-bytes`
record before any conversion, timestamp resolution, folder creation or
move: the state is returned unchanged and the effect trace is empty. -/
theorem C9_zero_byte_skip (dryRun : Bool) (st : RootState) (fname : String)
    (m : FMeta) (conv : ConvOutcome) (cb : Option DateTime) (cm : DateTime)
    (h : m.size = 0) :
    process_file dryRun st fname m conv cb cm =
      (st, ⟨rootPath fname, "", "SKIP", "zero-bytes"⟩, []) := by
  simp [process_file, h]

theorem C9_zero_byte_skip_witness :
    process_file false ⟨["z.jpg"], []⟩ "z.jpg" ⟨0, none, none, ⟨2024, 1, 1, 0, 0, 0⟩⟩
        ConvOutcome.ok none ⟨2024, 1, 1, 0, 0, 0⟩ =
      (⟨["z.jpg"], []⟩, ⟨rootPath "z.jpg", "", "SKIP", "zero-bytes"⟩, []) :=
  C9_zero_byte_skip false _ "z.jpg" _ ConvOutcome.ok none _ rfl

/-- C10: target-format normalization sends `jpg`/`jpeg` (case-insensitive)
to `.jpg`, `png` to `.png`, and everything else — including the empty
string, `auto`, `source`, `original` and unrecognized values — to `none`,
never raising; with `none` the composed filename keeps the lower-cased
source extension except HEIC/HEIF, which become `.jpg`. -/
theorem C10_format_normalization (s name : String) (ts : DateTime) (tags : List String) :
    ((toLowerStr s = "jpg" ∨ toLowerStr s = "jpeg") →
      normalize_target_format s = some ".jpg") ∧
    (toLowerStr s = "png" → normalize_target_format s = some ".png") ∧
    (toLowerStr s ≠ "jpg" → toLowerStr s ≠ "jpeg" → toLowerStr s ≠ "png" →
      normalize_target_format s = none) ∧
    (suffixLower name ∈ MEDIA_EXT →
      generate_descriptive_filename name ts tags none =
        fmtYmdHm ts ++ "_" ++
          (if tags.isEmpty then "construction" else joinUnderscore (tags.take 3)) ++
          (if suffixLower name ∈ CONVERT_TO_JPG then ".jpg" else suffixLower name)) := by
  refine ⟨?_, ?_, ?_, ?_⟩
  · intro h
    have hs : s ≠ "" := by rintro rfl; revert h; decide
    rcases h with h | h <;> simp [normalize_target_format, hs, h]
  · intro h
    have hs : s ≠ "" := by rintro rfl; revert h; decide
    simp [normalize_target_format, hs, h]
  · intro h1 h2 h3
    by_cases hs : s = ""
    · subst hs; decide
    · by_cases ha : toLowerStr s = "auto" ∨ toLowerStr s = "source" ∨
        toLowerStr s = "original" ∨ toLowerStr s = ""
      · simp [normalize_target_format, hs, ha]
      · simp [normalize_target_format, hs, ha, h1, h2, h3]
  · intro hm
    have hne : suffixLower name ≠ "" := by
      intro h0; rw [h0] at hm; revert hm; decide
    by_cases hc : suffixLower name ∈ CONVERT_TO_JPG <;>
      simp [generate_descriptive_filename, hc, hne]

theorem C10_format_normalization_witness :
    normalize_target_format "WEBP" = none ∧
    normalize_target_format "JPEG" = some ".jpg" ∧
    generate_descriptive_filename "a.PNG" ⟨2024, 1, 15, 9, 15, 0⟩ [] none =
      fmtYmdHm ⟨2024, 1, 15, 9, 15, 0⟩ ++ "_" ++ "construction" ++ ".png" := by
  refine ⟨(C10_format_normalization "WEBP" "a.PNG" ⟨2024, 1, 15, 9, 15, 0⟩ []).2.2.1
        (by decide) (by decide) (by decide),
    (C10_format_normalization "JPEG" "a.PNG" ⟨2024, 1, 15, 9, 15, 0⟩ []).1
        (Or.inr (by decide)), ?_⟩
  have h := (C10_format_normalization "WEBP" "a.PNG" ⟨2024, 1, 15, 9, 15, 0⟩ []).2.2.2
    (by decide)
  have e1 : suffixLower "a.PNG" = ".png" := by decide
  rw [e1] at h
  simpa using h

/-! Lemmas about the tag-merge loop. -/

theorem mergeTags_extends : ∀ (l acc : List String), ∃ r, mergeTags acc l = acc ++ r := by
  intro l
  induction l with
  | nil => intro acc; exact ⟨[], by simp [mergeTags]⟩
  | cons t ts ih =>
    intro acc
    by_cases hmem : t ∈ acc
    · by_cases h3 : 3 ≤ acc.length
      · exact ⟨[], by simp [mergeTags, hmem, h3]⟩
      · obtain ⟨r, hr⟩ := ih acc
        exact ⟨r, by simp only [mergeTags, if_pos hmem, if_neg h3]; exact hr⟩
    · by_cases h3 : 3 ≤ (acc ++ [t]).length
      · exact ⟨[t], by simp only [mergeTags, if_neg hmem, if_pos h3]⟩
      · obtain ⟨r, hr⟩ := ih (acc ++ [t])
        refine ⟨[t] ++ r, ?_⟩
        simp only [mergeTags, if_neg hmem, if_neg h3]
        rw [hr, List.append_assoc]

theorem mergeTags_sub : ∀ (l acc : List String), ∀ x ∈ mergeTags acc l, x ∈ acc ∨ x ∈ l := by
  intro l
  induction l with
  | nil => intro acc x hx; exact Or.inl (by simpa [mergeTags] using hx)
  | cons t ts ih =>
    intro acc x hx
    by_cases hmem : t ∈ acc
    · by_cases h3 : 3 ≤ acc.length
      · simp only [mergeTags, if_pos hmem, if_pos h3] at hx
        exact Or.inl hx
      · simp only [mergeTags, if_pos hmem, if_neg h3] at hx
        rcases ih acc x hx with h | h
        · exact Or.inl h
        · exact Or.inr (List.mem_cons_of_mem _ h)
    · by_cases h3 : 3 ≤ (acc ++ [t]).length
      · simp only [mergeTags, if_neg hmem, if_pos h3] at hx
        rcases List.mem_append.mp hx with h | h
        · exact Or.inl h
        · simp only [List.mem_singleton] at h
          exact Or.inr (h ▸ List.mem_cons_self _ _)
      · simp only [mergeTags, if_neg hmem, if_neg h3] at hx
        rcases ih (acc ++ [t]) x hx with h | h
        · rcases List.mem_append.mp h with h' | h'
          · exact Or.inl h'
          · simp only [List.mem_singleton] at h'
            exact Or.inr (h' ▸ List.mem_cons_self _ _)
        · exact Or.inr (List.mem_cons_of_mem _ h)

theorem mergeTags_nodup : ∀ (l acc : List String), acc.Nodup → (mergeTags acc l).Nodup := by
  intro l
  induction l with
  | nil => intro acc h; simpa [mergeTags] using h
  | cons t ts ih =>
    intro acc h
    by_cases hmem : t ∈ acc
    · simp only [mergeTags, if_pos hmem]
      split
      · exact h
      · exact ih acc h
    · have h' : (acc ++ [t]).Nodup := by
        refine List.Nodup.append h (by simp) ?_
        intro a ha hb
        simp only [List.mem_singleton] at hb
        exact hmem (hb ▸ ha)
      simp only [mergeTags, if_neg hmem]
      split
      · exact h'
      · exact ih _ h'

theorem mergeTags_length : ∀ (l acc : List String), acc.length < 3 →
    (mergeTags acc l).length ≤ 3 := by
  intro l
  induction l with
  | nil => intro acc h; simpa [mergeTags] using h.le
  | cons t ts ih =>
    intro acc h
    by_cases hmem : t ∈ acc
    · by_cases h3 : 3 ≤ acc.length
      · omega
      · simp only [mergeTags, if_pos hmem, if_neg h3]
        exact ih acc h
    · by_cases h3 : 3 ≤ (acc ++ [t]).length
      · simp only [mergeTags, if_neg hmem, if_pos h3]
        simp at h3 ⊢
        omega
      · simp only [mergeTags, if_neg hmem, if_neg h3]
        apply ih
        simp at h3 ⊢
        omega

theorem mergeTags_nonempty : ∀ (l acc : List String), acc ≠ [] ∨ l ≠ [] →
    mergeTags acc l ≠ [] := by
  intro l
  induction l with
  | nil =>
    intro acc h
    simp only [mergeTags]
    rcases h with h | h
    · exact h
    · exact absurd rfl h
  | cons t ts ih =>
    intro acc _
    have hne : (if t ∈ acc then acc else acc ++ [t]) ≠ [] := by
      by_cases hmem : t ∈ acc
      · simp only [if_pos hmem]
        rintro rfl
        exact List.not_mem_nil t hmem
      · simp [if_neg hmem]
    by_cases hmem : t ∈ acc
    · by_cases h3 : 3 ≤ acc.length
      · simp only [mergeTags, if_pos hmem, if_pos h3]
        simpa [hmem] using hne
      · simp only [mergeTags, if_pos hmem, if_neg h3]
        exact ih acc (Or.inl (by simpa [hmem] using hne))
    · by_cases h3 : 3 ≤ (acc ++ [t]).length
      · simp only [mergeTags, if_neg hmem, if_pos h3]
        simp
      · simp only [mergeTags, if_neg hmem, if_neg h3]
        exact ih _ (Or.inl (by simp))

theorem mergeTags_color_first :
    ∀ (c acc rest : List String), (acc ++ c).Nodup → acc.length ≤ 3 →
      ∃ r, mergeTags acc (c ++ rest) = (acc ++ c).take 3 ++ r := by
  intro c
  induction c with
  | nil =>
    intro acc rest hnd hlen
    obtain ⟨r, hr⟩ := mergeTags_extends rest acc
    refine ⟨r, ?_⟩
    simpa [List.take_of_length_le hlen] using hr
  | cons x c' ih =>
    intro acc rest hnd hlen
    have hx : x ∉ acc := by
      intro hmem
      exact (List.disjoint_of_nodup_append hnd) hmem (List.mem_cons_self x c')
    simp only [List.cons_append, mergeTags, if_neg hx]
    by_cases h3 : 3 ≤ (acc ++ [x]).length
    · rw [if_pos h3]
      have hal : acc.length = 2 ∨ acc.length = 3 := by
        simp only [List.length_append, List.length_singleton] at h3
        omega
      rw [List.take_append_eq_append_take, List.take_of_length_le hlen]
      rcases hal with h | h
      · refine ⟨[], ?_⟩
        rw [h]
        simp
      · refine ⟨[x], ?_⟩
        rw [h]
        simp
    · rw [if_neg h3]
      have hnd' : ((acc ++ [x]) ++ c').Nodup := by
        rw [← List.append_cons]
        exact hnd
      have hlen' : (acc ++ [x]).length ≤ 3 := by
        simp only [List.length_append, List.length_singleton] at h3 ⊢
        omega
      obtain ⟨r, hr⟩ := ih (acc ++ [x]) rest hnd' hlen'
      refine ⟨r, ?_⟩
      simp only [List.append_eq]
      rw [hr, ← List.append_cons]

theorem color_tags_nodup (r : ColorRatios) : (color_tags r).Nodup := by
  unfold color_tags
  split_ifs <;> decide

theorem color_tags_yellow (r : ColorRatios) :
    ("yellow_trench_protection" ∈ color_tags r) ↔ r.yellow > colorThreshold := by
  unfold color_tags
  split_ifs <;> simp_all

theorem color_tags_orange (r : ColorRatios) :
    ("orange_conduit" ∈ color_tags r) ↔ r.orange > colorThreshold := by
  unfold color_tags
  split_ifs <;> simp_all

theorem color_tags_blue (r : ColorRatios) :
    ("blue_water_pipe" ∈ color_tags r) ↔ r.blue > colorThreshold := by
  unfold color_tags
  split_ifs <;> simp_all

theorem color_tags_green (r : ColorRatios) :
    ("green_sewer_pipe" ∈ color_tags r) ↔ r.green > colorThreshold := by
  unfold color_tags
  split_ifs <;> simp_all

theorem color_tags_red (r : ColorRatios) :
    ("red_electrical_marker" ∈ color_tags r) ↔ r.red1 + r.red2 > colorThreshold := by
  unfold color_tags
  split_ifs <;> simp_all

theorem foldl_dedupAppend_ne_nil (g : Nat → String) :
    ∀ (l : List Nat) (acc : List String), acc ≠ [] →
      l.foldl (fun a i => dedupAppend a (g i)) acc ≠ [] := by
  intro l
  induction l with
  | nil => intro acc h; simpa using h
  | cons i is ih =>
    intro acc h
    simp only [List.foldl_cons]
    apply ih
    unfold dedupAppend
    split
    · exact h
    · simp

theorem clip_tags_from_ne_nil (categories : List String) {idxs : List Nat}
    (h : idxs ≠ []) : clip_tags_from categories idxs ≠ [] := by
  match idxs, h with
  | i :: is, _ =>
    unfold clip_tags_from
    simp only [List.foldl_cons]
    apply foldl_dedupAppend_ne_nil
    simp [dedupAppend]

/-- C7: for every analysed file the produced tag list is an ordered,
duplicate-free sequence of at most 3 labels: heuristic colour-band labels
come first (in band declaration order, each present iff its pixel ratio
exceeds the fixed 0.02 threshold, the wrap-around red band being the sum
of its two hue ranges), followed by the model-ranked labels, truncated to
three; when the classifier is unavailable (or its pass raises) and the
heuristics find nothing, the result is the single fixed fallback label
`"construction"`; no label ever appears twice.  The hypothesis mirrors the
source, where a successful classifier pass always ranks at least one
category. -/
theorem C7_tagset_invariants (aiAvailable : Bool) (r : ColorRatios) (clipOk : Bool)
    (categories : List String) (topIdxs : List Nat)
    (hclip : aiAvailable = true → clipOk = true → topIdxs ≠ []) :
    (analyze_photo_content aiAvailable r clipOk categories topIdxs).Nodup ∧
    (analyze_photo_content aiAvailable r clipOk categories topIdxs).length ≤ 3 ∧
    analyze_photo_content aiAvailable r clipOk categories topIdxs ≠ [] ∧
    (∃ rest, analyze_photo_content aiAvailable r clipOk categories topIdxs =
      (color_tags r).take 3 ++ rest) ∧
    (∀ t ∈ analyze_photo_content aiAvailable r clipOk categories topIdxs,
      t ∈ color_tags r ∨ t ∈ clip_tags_from categories topIdxs ∨ t = "construction") ∧
    ((aiAvailable = false ∨ clipOk = false) → color_tags r = [] →
      analyze_photo_content aiAvailable r clipOk categories topIdxs = ["construction"]) ∧
    ("yellow_trench_protection" ∈ color_tags r ↔ r.yellow > colorThreshold) ∧
    ("orange_conduit" ∈ color_tags r ↔ r.orange > colorThreshold) ∧
    ("blue_water_pipe" ∈ color_tags r ↔ r.blue > colorThreshold) ∧
    ("green_sewer_pipe" ∈ color_tags r ↔ r.green > colorThreshold) ∧
    ("red_electrical_marker" ∈ color_tags r ↔ r.red1 + r.red2 > colorThreshold) := by
  have hcases :
      (analyze_photo_content aiAvailable r clipOk categories topIdxs =
        (if (color_tags r).isEmpty then ["construction"] else color_tags r).take 3 ∧
        (aiAvailable = false ∨ clipOk = false)) ∨
      (analyze_photo_content aiAvailable r clipOk categories topIdxs =
        mergeTags [] (color_tags r ++ clip_tags_from categories topIdxs) ∧
        aiAvailable = true ∧ clipOk = true) := by
    cases aiAvailable
    · exact Or.inl ⟨by simp [analyze_photo_content], Or.inl rfl⟩
    · cases clipOk
      · exact Or.inl ⟨by simp [analyze_photo_content], Or.inr rfl⟩
      · exact Or.inr ⟨by simp [analyze_photo_content], rfl, rfl⟩
  rcases hcases with ⟨heq, hoff⟩ | ⟨heq, hai, hck⟩
  · rw [heq]
    by_cases hempty : (color_tags r).isEmpty
    · have hnil : color_tags r = [] := by simpa using hempty
      refine ⟨by simp [hempty], by simp [hempty], by simp [hempty], ?_, ?_, ?_,
        color_tags_yellow r, color_tags_orange r, color_tags_blue r,
        color_tags_green r, color_tags_red r⟩
      · exact ⟨["construction"], by simp [hempty, hnil]⟩
      · intro t ht
        simp only [if_pos hempty] at ht
        simp only [List.take, List.mem_singleton] at ht
        exact Or.inr (Or.inr ht)
      · intro _ _
        simp [hempty]
    · refine ⟨?_, ?_, ?_, ?_, ?_, ?_,
        color_tags_yellow r, color_tags_orange r, color_tags_blue r,
        color_tags_green r, color_tags_red r⟩
      · simp only [if_neg hempty]
        exact (List.take_sublist 3 _).nodup (color_tags_nodup r)
      · simp only [if_neg hempty]
        exact List.length_take_le 3 _
      · simp only [if_neg hempty]
        intro hc
        rcases (List.take_eq_nil_iff).mp hc with h | h
        · exact absurd h (by norm_num)
        · exact hempty (by simp [h])
      · exact ⟨[], by simp [hempty]⟩
      · intro t ht
        simp only [if_neg hempty] at ht
        exact Or.inl ((List.take_sublist 3 _).mem ht)
      · intro _ hnil
        exact absurd (by simp [hnil] : (color_tags r).isEmpty = true) hempty
  · have hne := clip_tags_from_ne_nil categories (hclip hai hck)
    rw [heq]
    refine ⟨mergeTags_nodup _ [] (by simp), mergeTags_length _ [] (by norm_num),
      mergeTags_nonempty _ [] (Or.inr ?_), ?_, ?_, ?_,
      color_tags_yellow r, color_tags_orange r, color_tags_blue r,
      color_tags_green r, color_tags_red r⟩
    · intro hc
      rw [List.append_eq_nil] at hc
      exact hne hc.2
    · obtain ⟨r', hr'⟩ := mergeTags_color_first (color_tags r) []
        (clip_tags_from categories topIdxs) (by simpa using color_tags_nodup r)
        (by simp)
      exact ⟨r', by simpa using hr'⟩
    · intro t ht
      rcases mergeTags_sub _ [] t ht with h | h
      · exact absurd h (List.not_mem_nil t)
      · rcases List.mem_append.mp h with h' | h'
        · exact Or.inl h'
        · exact Or.inr (Or.inl h')
    · intro hoff _
      rcases hoff with h | h
      · rw [hai] at h; exact absurd h (by simp)
      · rw [hck] at h; exact absurd h (by simp)

theorem C7_tagset_invariants_witness :
    (analyze_photo_content true ⟨1/10, 0, 0, 0, 0, 0⟩ true
        ["excavator digging trench"] [0]).Nodup ∧
    (analyze_photo_content true ⟨1/10, 0, 0, 0, 0, 0⟩ true
        ["excavator digging trench"] [0]).length ≤ 3 ∧
    analyze_photo_content true ⟨1/10, 0, 0, 0, 0, 0⟩ true
        ["excavator digging trench"] [0] ≠ [] := by
  have h := C7_tagset_invariants true ⟨1/10, 0, 0, 0, 0, 0⟩ true
    ["excavator digging trench"] [0] (fun _ _ => by decide)
  exact ⟨h.1, h.2.1, h.2.2.1⟩

/-! Validity of filename-extracted timestamps. -/

theorem parseYmdHms_valid {d t : List Char} {dt : DateTime}
    (h : parseYmdHms d t = some dt) : validDateTime dt = true := by
  unfold parseYmdHms at h
  split at h
  · dsimp only at h
    split at h
    · rename_i hvalid
      cases h
      exact hvalid
    · exact absurd h (by simp)
  · exact absurd h (by simp)

theorem tryPat_valid {isWA : Bool} {p : FPat} {name : String} {dt : DateTime}
    (h : tryPat isWA p name = some dt) : validDateTime dt = true := by
  unfold tryPat at h
  split at h
  · exact parseYmdHms_valid h
  · exact absurd h (by simp)

theorem extract_timestamp_valid {name : String} {dt : DateTime}
    (h : extract_timestamp_from_filename name = some dt) : validDateTime dt = true := by
  unfold extract_timestamp_from_filename at h
  split at h
  · rename_i heq
    cases h
    exact tryPat_valid heq
  · split at h
    · rename_i heq
      cases h
      exact tryPat_valid heq
    · split at h
      · rename_i heq
        cases h
        exact tryPat_valid heq
      · exact tryPat_valid h

/-- C1 counterexample: the frozen claim says the pipeline's resolved
timestamp (used for the `YYYYMMDD` folder and the `YYYYMMDD_HHmm` name)
follows a recognised filename pattern even when EXIF differs.  For the
file `IMG_20240115_091500.jpg` carrying EXIF `DateTimeOriginal`
2024-02-01, the filename parses to 2024-01-15 09:15, yet the master
pipeline resolves 2024-02-01 (it never consults the filename), placing the
file in folder `20240201` with a `20240201_0000` name. -/
theorem C1_counterexample :
    extract_timestamp_from_filename "IMG_20240115_091500.jpg" =
      some ⟨2024, 1, 15, 9, 15, 0⟩ ∧
    get_file_timestamp
        ⟨"IMG_20240115_091500.jpg", some ⟨2024, 2, 1, 0, 0, 0⟩, none,
          ⟨2024, 3, 1, 0, 0, 0⟩⟩ = ⟨2024, 2, 1, 0, 0, 0⟩ ∧
    fmtYmd (get_file_timestamp
        ⟨"IMG_20240115_091500.jpg", some ⟨2024, 2, 1, 0, 0, 0⟩, none,
          ⟨2024, 3, 1, 0, 0, 0⟩⟩) ≠ "20240115" ∧
    (process_single_photo false ⟨[], []⟩
        ⟨"IMG_20240115_091500.jpg", some ⟨2024, 2, 1, 0, 0, 0⟩, none,
          ⟨2024, 3, 1, 0, 0, 0⟩⟩ true none ⟨2025, 1, 1, 0, 0, 0⟩ ["site"] none
        ConvOutcome.ok).1.final_path =
      "/tmp/photo_processing/20240201/20240201_0000_site.jpg" := by
  refine ⟨by decide, by decide, by decide, by decide⟩

/-- C1 amended: in the AI renamer, a file whose name matches a recognised
embedded-timestamp pattern gets its `YYYYMMDD_HHmm` name stem from the
filename-derived timestamp — a valid date, first matching-and-parsing
pattern winning — regardless of the file's modify time; the master
pipeline's `get_file_timestamp`, which chooses the date folder, depends on
the filename only through its extension (EXIF, then birth/modify time),
never on an embedded pattern. -/
theorem C1_amended_renamer_uses_filename_stamp (name : String) (dt : DateTime)
    (hext : extract_timestamp_from_filename name = some dt)
    (analysis : Analysis) (mtime mtime' : DateTime) (f : MFile) (n' : String)
    (hsuf : suffixLower n' = suffixLower f.name) :
    (∃ rest, generate_new_filename name analysis
        (extract_timestamp_from_filename name) mtime = fmtYmdHm dt ++ rest) ∧
    generate_new_filename name analysis (extract_timestamp_from_filename name) mtime =
      generate_new_filename name analysis (extract_timestamp_from_filename name) mtime' ∧
    validDateTime dt = true ∧
    get_file_timestamp { f with name := n' } = get_file_timestamp f := by
  refine ⟨?_, ?_, extract_timestamp_valid hext, ?_⟩
  · rw [hext]
    simp only [generate_new_filename, Option.getD_some]
    exact ⟨_, by rw [String.append_assoc, String.append_assoc]⟩
  · rw [hext]
    simp [generate_new_filename]
  · simp [get_file_timestamp, hsuf]

theorem C1_amended_witness :
    (∃ rest, generate_new_filename "PXL_20250708_052126.jpg" ⟨"", []⟩
        (extract_timestamp_from_filename "PXL_20250708_052126.jpg")
        ⟨2024, 2, 1, 0, 0, 0⟩ = fmtYmdHm ⟨2025, 7, 8, 5, 21, 26⟩ ++ rest) ∧
    generate_new_filename "PXL_20250708_052126.jpg" ⟨"", []⟩
        (extract_timestamp_from_filename "PXL_20250708_052126.jpg")
        ⟨2024, 2, 1, 0, 0, 0⟩ =
      generate_new_filename "PXL_20250708_052126.jpg" ⟨"", []⟩
        (extract_timestamp_from_filename "PXL_20250708_052126.jpg")
        ⟨2024, 3, 9, 1, 2, 3⟩ ∧
    validDateTime ⟨2025, 7, 8, 5, 21, 26⟩ = true ∧
    get_file_timestamp
        { (⟨"a.jpg", none, none, ⟨2024, 1, 1, 0, 0, 0⟩⟩ : MFile) with name := "b.jpg" } =
      get_file_timestamp ⟨"a.jpg", none, none, ⟨2024, 1, 1, 0, 0, 0⟩⟩ :=
  C1_amended_renamer_uses_filename_stamp "PXL_20250708_052126.jpg"
    ⟨2025, 7, 8, 5, 21, 26⟩ (by decide) ⟨"", []⟩ ⟨2024, 2, 1, 0, 0, 0⟩
    ⟨2024, 3, 9, 1, 2, 3⟩ ⟨"a.jpg", none, none, ⟨2024, 1, 1, 0, 0, 0⟩⟩ "b.jpg" (by decide)

/-! Dry-run behaviour of Phase 1. -/

theorem drainFiles_dry (dName : String) :
    ∀ (files rootFiles dirNames : List String),
      (drainFiles true dName rootFiles dirNames files).1 = files ∧
      (drainFiles true dName rootFiles dirNames files).2.1 = rootFiles := by
  intro files
  induction files with
  | nil => intro rf dn; exact ⟨rfl, rfl⟩
  | cons f fs ih =>
    intro rf dn
    simp only [drainFiles]
    split
    · exact ⟨by rw [(ih rf dn).1], (ih rf dn).2⟩
    · simp only [if_true]
      exact ⟨by rw [(ih rf dn).1], (ih rf dn).2⟩

theorem consolidateOne_dry (rootFiles dirNames : List String) (d : SubDir) :
    (consolidateOne true rootFiles dirNames d).1 = rootFiles ∧
    (consolidateOne true rootFiles dirNames d).2.1 = dirNames ∧
    (consolidateOne true rootFiles dirNames d).2.2.1 = some d := by
  unfold consolidateOne
  split_ifs with h1 h2
  · exact ⟨rfl, rfl, rfl⟩
  · exact ⟨rfl, rfl, rfl⟩
  · dsimp only
    rw [if_neg (by simp)]
    refine ⟨(drainFiles_dry d.name d.files rootFiles dirNames).2, rfl, ?_⟩
    rw [(drainFiles_dry d.name d.files rootFiles dirNames).1]

theorem consolidateDirs_dry :
    ∀ (ds : List SubDir) (rootFiles dirNames : List String),
      (consolidateDirs true ds rootFiles dirNames).1 = rootFiles ∧
      (consolidateDirs true ds rootFiles dirNames).2.1 = ds := by
  intro ds
  induction ds with
  | nil => intro rf dn; exact ⟨rfl, rfl⟩
  | cons d ds ih =>
    intro rf dn
    obtain ⟨h1, h2, h3⟩ := consolidateOne_dry rf dn d
    simp only [consolidateDirs, h1, h2, h3]
    exact ⟨(ih rf dn).1, by rw [(ih rf dn).2]⟩

/-- C2 counterexample: with the dry-run flag set, `setup_temp_directory`
still deletes an existing temp tree and creates a fresh directory — so a
dry run both deletes and creates directories; and for a HEIC file carrying
EXIF `DateTimeOriginal`, the dry run resolves its timestamp from the
original file's filesystem times while the live run resolves it from the
converted JPG's EXIF, so the two runs log different destinations. -/
theorem C2_counterexample :
    setup_temp_directory true true =
      [FsOp.removeTree tempDirPath, FsOp.createDir tempDirPath] ∧
    (process_single_photo true ⟨[], []⟩
        ⟨"IMG_1.HEIC", some ⟨2024, 1, 15, 9, 15, 0⟩, none, ⟨2024, 2, 1, 0, 0, 0⟩⟩
        true (some ⟨2025, 1, 1, 0, 0, 0⟩) ⟨2025, 1, 1, 0, 0, 0⟩ ["site"] none
        ConvOutcome.ok).1.final_path ≠
      (process_single_photo false ⟨[], []⟩
        ⟨"IMG_1.HEIC", some ⟨2024, 1, 15, 9, 15, 0⟩, none, ⟨2024, 2, 1, 0, 0, 0⟩⟩
        true (some ⟨2025, 1, 1, 0, 0, 0⟩) ⟨2025, 1, 1, 0, 0, 0⟩ ["site"] none
        ConvOutcome.ok).1.final_path :=
  ⟨by decide, by decide⟩

/-- C2 amended: a dry run performs no moves, copies, conversions or
deletions of media files — `move_or_log` is a no-op, the per-file master
pipeline emits an empty trace and leaves the temp tree untouched, and
Phase 1 consolidation leaves the whole tree unchanged — and for non-HEIC
files whose live-run write succeeds, the dry-run and live-run audit
records agree on every field; but the runner itself still deletes and
recreates the temp directory, writes the log file, and (for HEIC files)
may resolve a different timestamp, as the counterexample shows. -/
theorem C2_amended_dry_run (src dst : String) (temp : RootState) (photo : MFile)
    (heicOk : Bool) (cb : Option DateTime) (cm : DateTime) (tags : List String)
    (targetExt : Option String) (fmtConv : ConvOutcome) (st : RootState)
    (hheic : suffixLower photo.name ∉ CONVERT_TO_JPG) :
    move_or_log_ops true src dst = [] ∧
    (process_single_photo true temp photo heicOk cb cm tags targetExt fmtConv).2 =
      (temp, []) ∧
    (consolidate_from_invalid_folders true st).1 = st ∧
    (process_single_photo true temp photo heicOk cb cm tags targetExt ConvOutcome.ok).1 =
      (process_single_photo false temp photo heicOk cb cm tags targetExt
        ConvOutcome.ok).1 := by
  refine ⟨rfl, ?_, ?_, ?_⟩
  · by_cases hh : suffixLower photo.name ∈ CONVERT_TO_JPG <;>
      simp [process_single_photo, hh]
  · obtain ⟨h1, h2⟩ := consolidateDirs_dry st.dirs st.rootFiles
      (st.dirs.map (fun d => d.name))
    simp only [consolidate_from_invalid_folders, h1, h2]
  · simp only [process_single_photo, if_neg hheic]
    split_ifs <;> rfl

theorem C2_amended_dry_run_witness :
    move_or_log_ops true "root/a.jpg" "root/20240115/a.jpg" = [] ∧
    (process_single_photo true ⟨[], []⟩ ⟨"a.jpg", none, none, ⟨2024, 1, 1, 0, 0, 0⟩⟩
        true none ⟨2025, 1, 1, 0, 0, 0⟩ ["site"] none ConvOutcome.ok).2 =
      ((⟨[], []⟩ : RootState), []) ∧
    (consolidate_from_invalid_folders true ⟨["a.jpg"], []⟩).1 = ⟨["a.jpg"], []⟩ ∧
    (process_single_photo true ⟨[], []⟩ ⟨"a.jpg", none, none, ⟨2024, 1, 1, 0, 0, 0⟩⟩
        true none ⟨2025, 1, 1, 0, 0, 0⟩ ["site"] none ConvOutcome.ok).1 =
      (process_single_photo false ⟨[], []⟩ ⟨"a.jpg", none, none, ⟨2024, 1, 1, 0, 0, 0⟩⟩
        true none ⟨2025, 1, 1, 0, 0, 0⟩ ["site"] none ConvOutcome.ok).1 :=
  C2_amended_dry_run "root/a.jpg" "root/20240115/a.jpg" ⟨[], []⟩
    ⟨"a.jpg", none, none, ⟨2024, 1, 1, 0, 0, 0⟩⟩ true none ⟨2025, 1, 1, 0, 0, 0⟩
    ["site"] none ConvOutcome.ok ⟨["a.jpg"], []⟩ (by decide)

theorem deleteFile_not_mem_ensure_folder (dirs : List SubDir) (dateStr : String)
    (p : String) : FsOp.deleteFile p ∉ (ensure_folder dirs dateStr).2.2 := by
  unfold ensure_folder
  dsimp only
  split <;> simp

theorem deleteFile_not_mem_rest (dryRun : Bool) (st1 : RootState)
    (fname current : String) (curMeta : FMeta) (converted : Bool) (p : String) :
    FsOp.deleteFile p ∉
      (process_file_rest dryRun st1 fname current curMeta converted).2.2 := by
  cases dryRun <;>
    · simp only [process_file_rest]
      intro hmem
      rcases List.mem_append.mp hmem with h | h
      · exact deleteFile_not_mem_ensure_folder _ _ _ h
      · simp at h

/-- C3 counterexample: when the opaque HEIC encoder fails after creating
the destination (`PIL` opens the destination file before encoding), the
per-file processing of `sort_media_by_date` leaves the partially written
`a.jpg` on disk — it is created, never deleted, and still listed in the
root when the per-file processing completes — refuting the clause that no
partially written destination file is retained. -/
theorem C3_counterexample :
    FsOp.createIncomplete "root/a.jpg" ∈
      (process_file false ⟨["a.heic"], []⟩ "a.heic"
        ⟨1, none, none, ⟨2024, 2, 1, 0, 0, 0⟩⟩ ConvOutcome.failIncomplete none
        ⟨2025, 1, 1, 0, 0, 0⟩).2.2 ∧
    (∀ op ∈ (process_file false ⟨["a.heic"], []⟩ "a.heic"
        ⟨1, none, none, ⟨2024, 2, 1, 0, 0, 0⟩⟩ ConvOutcome.failIncomplete none
        ⟨2025, 1, 1, 0, 0, 0⟩).2.2,
      op ≠ FsOp.deleteFile "root/a.jpg" ∧ op ≠ FsOp.deleteFile "root/a.heic") ∧
    "a.jpg" ∈ (process_file false ⟨["a.heic"], []⟩ "a.heic"
        ⟨1, none, none, ⟨2024, 2, 1, 0, 0, 0⟩⟩ ConvOutcome.failIncomplete none
        ⟨2025, 1, 1, 0, 0, 0⟩).1.rootFiles := by
  decide

set_option maxHeartbeats 2000000 in
/-- C3 amended: conversion failure never costs the original file — in the
sort pipeline the only file ever deleted is the original of a HEIC
conversion, and only after the encoder reported a fully successful write
in a live run; the master pipeline deletes and moves nothing at all, only
copying.  However no cleanup of a partially written destination is
performed (see the counterexample). -/
theorem C3_amended_no_data_loss (dryRun : Bool) (st : RootState) (fname : String)
    (m : FMeta) (conv : ConvOutcome) (cb : Option DateTime) (cm : DateTime)
    (temp : RootState) (photo : MFile) (heicOk : Bool) (tags : List String)
    (targetExt : Option String) (fmtConv : ConvOutcome) :
    (∀ p, FsOp.deleteFile p ∈ (process_file dryRun st fname m conv cb cm).2.2 ↔
      (p = rootPath fname ∧ suffixLower fname ∈ CONVERT_TO_JPG ∧
        conv = ConvOutcome.ok ∧ dryRun = false ∧ m.size ≠ 0)) ∧
    (∀ p, FsOp.deleteFile p ∉
      (process_single_photo dryRun temp photo heicOk cb cm tags targetExt fmtConv).2.2) ∧
    (∀ p q, FsOp.moveFile p q ∉
      (process_single_photo dryRun temp photo heicOk cb cm tags targetExt fmtConv).2.2) := by
  refine ⟨?_, ?_, ?_⟩
  · intro p
    by_cases hz : m.size = 0
    · simp [process_file, hz]
    · by_cases hh : suffixLower fname ∈ CONVERT_TO_JPG <;>
        cases conv <;> cases dryRun <;>
          simp [process_file, hz, hh, deleteFile_not_mem_rest]
  · intro p
    by_cases hh : suffixLower photo.name ∈ CONVERT_TO_JPG <;>
      cases dryRun <;> cases fmtConv <;>
        (simp only [process_single_photo, hh]; split_ifs <;> simp)
  · intro p q
    by_cases hh : suffixLower photo.name ∈ CONVERT_TO_JPG <;>
      cases dryRun <;> cases fmtConv <;>
        (simp only [process_single_photo, hh]; split_ifs <;> simp)

/-! Live-run behaviour of Phase 1, via one-step unfolding equations. -/

theorem drainFiles_cons_elig (dName f : String) (fs rf dn : List String)
    (he : eligibleMedia f = true) :
    drainFiles false dName rf dn (f :: fs) =
      ((drainFiles false dName (rf ++ [resolve_collision (rf ++ dn) f]) dn fs).1,
        (drainFiles false dName (rf ++ [resolve_collision (rf ++ dn) f]) dn fs).2.1,
        ⟨dirPath dName f, rootPath (resolve_collision (rf ++ dn) f), "CONSOLIDATE",
            "moved from invalid folder: " ++ dName⟩ ::
          (drainFiles false dName (rf ++ [resolve_collision (rf ++ dn) f]) dn fs).2.2) := by
  simp only [drainFiles]
  rw [if_neg (by simp [he]), if_neg (by simp)]

theorem drainFiles_cons_inelig (dName f : String) (fs rf dn : List String)
    (he : eligibleMedia f = false) :
    drainFiles false dName rf dn (f :: fs) =
      (f :: (drainFiles false dName rf dn fs).1,
        (drainFiles false dName rf dn fs).2.1,
        (drainFiles false dName rf dn fs).2.2) := by
  simp only [drainFiles]
  rw [if_pos (by simp [he])]

theorem drainFiles_live (dName : String) :
    ∀ (files rootFiles dirNames : List String),
      (drainFiles false dName rootFiles dirNames files).1 =
        files.filter (fun f => ! eligibleMedia f) ∧
      (∀ lr ∈ (drainFiles false dName rootFiles dirNames files).2.2,
        lr.method = "CONSOLIDATE") ∧
      (drainFiles false dName rootFiles dirNames files).2.2.length =
        (files.filter eligibleMedia).length ∧
      (drainFiles false dName rootFiles dirNames files).2.1.length =
        rootFiles.length + (files.filter eligibleMedia).length := by
  intro files
  induction files with
  | nil =>
    intro rf dn
    exact ⟨rfl, by simp [drainFiles], rfl, rfl⟩
  | cons f fs ih =>
    intro rf dn
    cases he : eligibleMedia f with
    | true =>
      rw [drainFiles_cons_elig dName f fs rf dn he]
      obtain ⟨h1, h2, h3, h4⟩ := ih (rf ++ [resolve_collision (rf ++ dn) f]) dn
      refine ⟨?_, ?_, ?_, ?_⟩
      · simpa [List.filter_cons, he] using h1
      · intro lr hlr
        rcases List.mem_cons.mp hlr with rfl | hlr
        · rfl
        · exact h2 lr hlr
      · simp [List.filter_cons, he, h3]
      · rw [h4]
        simp [List.filter_cons, he]
        omega
    | false =>
      rw [drainFiles_cons_inelig dName f fs rf dn he]
      obtain ⟨h1, h2, h3, h4⟩ := ih rf dn
      refine ⟨?_, h2, ?_, ?_⟩
      · simp [List.filter_cons, he, h1]
      · simp [List.filter_cons, he, h3]
      · simp [List.filter_cons, he, h4]

theorem consolidateOne_hidden_or_valid (rf dn : List String) (d : SubDir)
    (h : is_hidden d.name = true ∨ is_valid_date_folder d.name = true) :
    consolidateOne false rf dn d = (rf, dn, some d, []) := by
  rcases h with h | h
  · simp [consolidateOne, h]
  · cases hh : is_hidden d.name
    · simp [consolidateOne, hh, h]
    · simp [consolidateOne, hh]

theorem consolidateOne_invalid_drained (rf dn : List String) (d : SubDir)
    (hh : is_hidden d.name = false) (hv : is_valid_date_folder d.name = false)
    (hdr : (drainFiles false d.name rf dn d.files).1.isEmpty = true ∧
      d.nonFileEntries = 0) :
    consolidateOne false rf dn d =
      ((drainFiles false d.name rf dn d.files).2.1, dn.erase d.name, none,
        (drainFiles false d.name rf dn d.files).2.2 ++
          [⟨"root/" ++ d.name, "", "REMOVE_FOLDER", "removed empty invalid folder"⟩]) := by
  unfold consolidateOne
  rw [if_neg (by simp [hh]), if_neg (by simp [hv])]
  dsimp only
  rw [if_pos ⟨by simp, hdr.1, hdr.2⟩]

theorem consolidateOne_invalid_kept (rf dn : List String) (d : SubDir)
    (hh : is_hidden d.name = false) (hv : is_valid_date_folder d.name = false)
    (hdr : ¬((drainFiles false d.name rf dn d.files).1.isEmpty = true ∧
      d.nonFileEntries = 0)) :
    consolidateOne false rf dn d =
      ((drainFiles false d.name rf dn d.files).2.1, dn,
        some ⟨d.name, (drainFiles false d.name rf dn d.files).1, d.nonFileEntries⟩,
        (drainFiles false d.name rf dn d.files).2.2) := by
  unfold consolidateOne
  rw [if_neg (by simp [hh]), if_neg (by simp [hv])]
  dsimp only
  rw [if_neg (fun hc => hdr ⟨hc.2.1, hc.2.2⟩)]

/-- Eligible files a Phase 1 pass moves out of one top-level directory. -/
def invalidEligCount (d : SubDir) : Nat :=
  if is_hidden d.name = false ∧ is_valid_date_folder d.name = false
  then (d.files.filter eligibleMedia).length else 0

/-- Whether Phase 1 removes the directory after draining it. -/
def drainedRemoved (d : SubDir) : Nat :=
  if is_hidden d.name = false ∧ is_valid_date_folder d.name = false ∧
      (d.files.filter (fun f => ! eligibleMedia f)).isEmpty = true ∧
      d.nonFileEntries = 0
  then 1 else 0

theorem consolidateDirs_live :
    ∀ (ds : List SubDir) (rf dn : List String),
      (∀ d ∈ ds, is_hidden d.name = true ∨ is_valid_date_folder d.name = true →
        d ∈ (consolidateDirs false ds rf dn).2.1) ∧
      (∀ d ∈ ds, is_hidden d.name = false → is_valid_date_folder d.name = false →
        ¬((d.files.filter (fun f => ! eligibleMedia f)).isEmpty = true ∧
            d.nonFileEntries = 0) →
        (⟨d.name, d.files.filter (fun f => ! eligibleMedia f), d.nonFileEntries⟩ : SubDir) ∈
          (consolidateDirs false ds rf dn).2.1) ∧
      ((consolidateDirs false ds rf dn).2.2.filter
          (fun lr => lr.method = "CONSOLIDATE")).length = (ds.map invalidEligCount).sum ∧
      ((consolidateDirs false ds rf dn).2.2.filter
          (fun lr => lr.method = "REMOVE_FOLDER")).length = (ds.map drainedRemoved).sum ∧
      (∀ lr ∈ (consolidateDirs false ds rf dn).2.2,
        lr.method = "CONSOLIDATE" ∨ lr.method = "REMOVE_FOLDER") ∧
      ((consolidateDirs false ds rf dn).2.1.length + (ds.map drainedRemoved).sum =
        ds.length) ∧
      ((consolidateDirs false ds rf dn).1.length =
        rf.length + (ds.map invalidEligCount).sum) := by
  intro ds
  induction ds with
  | nil =>
    intro rf dn
    exact ⟨by simp, by simp, rfl, rfl, by simp [consolidateDirs], rfl, rfl⟩
  | cons d ds ih =>
    intro rf dn
    by_cases hhv : is_hidden d.name = true ∨ is_valid_date_folder d.name = true
    · have hone := consolidateOne_hidden_or_valid rf dn d hhv
      have hc0 : invalidEligCount d = 0 := by
        unfold invalidEligCount
        rw [if_neg]
        rintro ⟨c1, c2⟩
        rcases hhv with h | h
        · rw [h] at c1; exact absurd c1 (by simp)
        · rw [h] at c2; exact absurd c2 (by simp)
      have hd0 : drainedRemoved d = 0 := by
        unfold drainedRemoved
        rw [if_neg]
        rintro ⟨c1, c2, _⟩
        rcases hhv with h | h
        · rw [h] at c1; exact absurd c1 (by simp)
        · rw [h] at c2; exact absurd c2 (by simp)
      obtain ⟨ihA, ihB, ihC, ihD, ihE, ihF, ihG⟩ := ih rf dn
      simp only [consolidateDirs, hone]
      refine ⟨?_, ?_, ?_, ?_, ?_, ?_, ?_⟩
      · intro d0 hd0' hcase
        rcases List.mem_cons.mp hd0' with rfl | hmem
        · exact List.mem_cons_self _ _
        · exact List.mem_cons_of_mem _ (ihA d0 hmem hcase)
      · intro d0 hd0' hh0 hv0 hnd0
        rcases List.mem_cons.mp hd0' with rfl | hmem
        · rcases hhv with h | h
          · rw [h] at hh0; exact absurd hh0 (by simp)
          · rw [h] at hv0; exact absurd hv0 (by simp)
        · exact List.mem_cons_of_mem _ (ihB d0 hmem hh0 hv0 hnd0)
      · simpa [hc0] using ihC
      · simpa [hd0] using ihD
      · simpa using ihE
      · simp only [List.map_cons, List.sum_cons, hd0, List.length_cons]
        omega
      · simpa [hc0] using ihG
    · have hh : is_hidden d.name = false := by
        cases h : is_hidden d.name
        · rfl
        · exact absurd (Or.inl h) hhv
      have hv : is_valid_date_folder d.name = false := by
        cases h : is_valid_date_folder d.name
        · rfl
        · exact absurd (Or.inr h) hhv
      obtain ⟨dh1, dh2, dh3, dh4⟩ := drainFiles_live d.name d.files rf dn
      have hfC : ((drainFiles false d.name rf dn d.files).2.2.filter
          (fun lr => lr.method = "CONSOLIDATE")).length =
          (d.files.filter eligibleMedia).length := by
        rw [List.filter_eq_self.mpr (fun lr hlr => by simp [dh2 lr hlr])]
        exact dh3
      have hfR : (drainFiles false d.name rf dn d.files).2.2.filter
          (fun lr => lr.method = "REMOVE_FOLDER") = [] :=
        List.filter_eq_nil_iff.mpr (fun lr hlr => by simp [dh2 lr hlr])
      have hcE : invalidEligCount d = (d.files.filter eligibleMedia).length := by
        unfold invalidEligCount
        rw [if_pos ⟨hh, hv⟩]
      by_cases hdr : (d.files.filter (fun f => ! eligibleMedia f)).isEmpty = true ∧
          d.nonFileEntries = 0
      · have hone := consolidateOne_invalid_drained rf dn d hh hv
          ⟨by rw [dh1]; exact hdr.1, hdr.2⟩
        have hd1 : drainedRemoved d = 1 := by
          unfold drainedRemoved
          rw [if_pos ⟨hh, hv, hdr.1, hdr.2⟩]
        obtain ⟨ihA, ihB, ihC, ihD, ihE, ihF, ihG⟩ :=
          ih (drainFiles false d.name rf dn d.files).2.1 (dn.erase d.name)
        simp only [consolidateDirs, hone]
        refine ⟨?_, ?_, ?_, ?_, ?_, ?_, ?_⟩
        · intro d0 hd0' hcase
          rcases List.mem_cons.mp hd0' with rfl | hmem
          · rcases hcase with h | h
            · rw [hh] at h; exact absurd h (by simp)
            · rw [hv] at h; exact absurd h (by simp)
          · exact ihA d0 hmem hcase
        · intro d0 hd0' hh0 hv0 hnd0
          rcases List.mem_cons.mp hd0' with rfl | hmem
          · exact absurd hdr hnd0
          · exact ihB d0 hmem hh0 hv0 hnd0
        · rw [List.append_assoc, List.filter_append, List.length_append,
            List.filter_eq_self.mpr (fun lr hlr => by simp [dh2 lr hlr]), dh3]
          simp only [List.filter_append, List.length_append, List.map_cons,
            List.sum_cons, hcE]
          rw [ihC]
          simp
        · rw [List.append_assoc, List.filter_append, List.length_append, hfR]
          simp only [List.filter_append, List.length_append, List.map_cons,
            List.sum_cons, hd1]
          rw [ihD]
          simp
        · intro lr hlr
          rcases List.mem_append.mp hlr with h | h
          · rcases List.mem_append.mp h with h' | h'
            · exact Or.inl (dh2 lr h')
            · simp only [List.mem_singleton] at h'
              exact Or.inr (by rw [h'])
          · exact ihE lr h
        · simp only [List.map_cons, List.sum_cons, hd1, List.length_cons]
          omega
        · rw [ihG, dh4]
          simp only [List.map_cons, List.sum_cons, hcE]
          omega
      · have hone := consolidateOne_invalid_kept rf dn d hh hv
          (fun hc => hdr ⟨by rw [← dh1]; exact hc.1, hc.2⟩)
        have hd0 : drainedRemoved d = 0 := by
          unfold drainedRemoved
          rw [if_neg]
          rintro ⟨_, _, c3, c4⟩
          exact hdr ⟨c3, c4⟩
        obtain ⟨ihA, ihB, ihC, ihD, ihE, ihF, ihG⟩ :=
          ih (drainFiles false d.name rf dn d.files).2.1 dn
        simp only [consolidateDirs, hone]
        refine ⟨?_, ?_, ?_, ?_, ?_, ?_, ?_⟩
        · intro d0 hd0' hcase
          rcases List.mem_cons.mp hd0' with rfl | hmem
          · rcases hcase with h | h
            · rw [hh] at h; exact absurd h (by simp)
            · rw [hv] at h; exact absurd h (by simp)
          · exact List.mem_cons_of_mem _ (ihA d0 hmem hcase)
        · intro d0 hd0' hh0 hv0 hnd0
          rcases List.mem_cons.mp hd0' with rfl | hmem
          · rw [dh1]
            exact List.mem_cons_self _ _
          · exact List.mem_cons_of_mem _ (ihB d0 hmem hh0 hv0 hnd0)
        · rw [List.filter_append, List.length_append, hfC]
          simp only [List.map_cons, List.sum_cons, hcE]
          rw [ihC]
        · rw [List.filter_append, List.length_append, hfR]
          simp only [List.map_cons, List.sum_cons, hd0]
          rw [ihD]
          simp
        · intro lr hlr
          rcases List.mem_append.mp hlr with h | h
          · exact Or.inl (dh2 lr h)
          · exact ihE lr h
        · simp only [List.map_cons, List.sum_cons, hd0, List.length_cons]
          omega
        · rw [ihG, dh4]
          simp only [List.map_cons, List.sum_cons, hcE]
          omega

/-- C6 counterexample: a hidden top-level directory (name starting with a
dot) is skipped by Phase 1 even though its name is not a valid 8-digit
date and it directly contains an eligible media file — nothing is moved
and no record is produced, refuting the claim's «every top-level
subdirectory whose name is not a valid 8-digit calendar date». -/
theorem C6_counterexample :
    consolidate_from_invalid_folders false ⟨[], [⟨".misc", ["a.jpg"], 0⟩]⟩ =
      (⟨[], [⟨".misc", ["a.jpg"], 0⟩]⟩, []) ∧
    is_valid_date_folder ".misc" = false ∧
    eligibleMedia "a.jpg" = true := by
  decide

/-- C6 amended: a live Phase 1 pass drains every *non-hidden/non-system*
top-level directory whose name is not a valid 8-digit calendar date of
exactly its eligible media files (one `CONSOLIDATE` record per file, all
moved to the batch root), removes the directory with a `REMOVE_FOLDER`
record exactly when nothing remains inside, keeps it (with precisely the
ineligible leftovers) otherwise and raises no error record; hidden/system
directories and valid-date directories are never touched. -/
theorem C6_consolidation (st : RootState) :
    (∀ d ∈ st.dirs, is_hidden d.name = true ∨ is_valid_date_folder d.name = true →
      d ∈ (consolidate_from_invalid_folders false st).1.dirs) ∧
    (∀ d ∈ st.dirs, is_hidden d.name = false → is_valid_date_folder d.name = false →
      ¬((d.files.filter (fun f => ! eligibleMedia f)).isEmpty = true ∧
          d.nonFileEntries = 0) →
      (⟨d.name, d.files.filter (fun f => ! eligibleMedia f), d.nonFileEntries⟩ : SubDir) ∈
        (consolidate_from_invalid_folders false st).1.dirs) ∧
    ((consolidate_from_invalid_folders false st).2.filter
        (fun lr => lr.method = "CONSOLIDATE")).length =
      (st.dirs.map invalidEligCount).sum ∧
    ((consolidate_from_invalid_folders false st).2.filter
        (fun lr => lr.method = "REMOVE_FOLDER")).length =
      (st.dirs.map drainedRemoved).sum ∧
    (∀ lr ∈ (consolidate_from_invalid_folders false st).2,
      lr.method = "CONSOLIDATE" ∨ lr.method = "REMOVE_FOLDER") ∧
    ((consolidate_from_invalid_folders false st).1.dirs.length +
      (st.dirs.map drainedRemoved).sum = st.dirs.length) ∧
    ((consolidate_from_invalid_folders false st).1.rootFiles.length =
      st.rootFiles.length + (st.dirs.map invalidEligCount).sum) := by
  obtain ⟨hA, hB, hC, hD, hE, hF, hG⟩ :=
    consolidateDirs_live st.dirs st.rootFiles (st.dirs.map (fun d => d.name))
  exact ⟨hA, hB, hC, hD, hE, hF, hG⟩

theorem C6_consolidation_witness :
    (⟨"20240115", ["c.jpg"], 0⟩ : SubDir) ∈
      (consolidate_from_invalid_folders false
        ⟨["a.jpg"], [⟨"misc_photos", ["b.jpg"], 0⟩, ⟨"20240115", ["c.jpg"], 0⟩]⟩).1.dirs ∧
    ((consolidate_from_invalid_folders false
        ⟨["a.jpg"], [⟨"misc_photos", ["b.jpg"], 0⟩, ⟨"20240115", ["c.jpg"], 0⟩]⟩).2.filter
        (fun lr => lr.method = "CONSOLIDATE")).length = 1 ∧
    ((consolidate_from_invalid_folders false
        ⟨["a.jpg"], [⟨"misc_photos", ["b.jpg"], 0⟩, ⟨"20240115", ["c.jpg"], 0⟩]⟩).2.filter
        (fun lr => lr.method = "REMOVE_FOLDER")).length = 1 := by
  have h := C6_consolidation
    ⟨["a.jpg"], [⟨"misc_photos", ["b.jpg"], 0⟩, ⟨"20240115", ["c.jpg"], 0⟩]⟩
  refine ⟨h.1 _ (by decide) (Or.inr (by decide)), ?_, ?_⟩
  · rw [h.2.2.1]; decide
  · rw [h.2.2.2.1]; decide

/-! Idempotence of the sort pipeline. -/

theorem consolidateDirs_all_valid :
    ∀ (ds : List SubDir) (rf dn : List String),
      (∀ d ∈ ds, is_hidden d.name = true ∨ is_valid_date_folder d.name = true) →
      consolidateDirs false ds rf dn = (rf, ds, []) := by
  intro ds
  induction ds with
  | nil => intro rf dn _; rfl
  | cons d ds ih =>
    intro rf dn h
    have hone := consolidateOne_hidden_or_valid rf dn d (h d (List.mem_cons_self _ _))
    simp only [consolidateDirs, hone,
      ih rf dn (fun d0 hd0 => h d0 (List.mem_cons_of_mem _ hd0))]
    rfl

/-- C4 counterexample: re-running the master pipeline against a
destination that already holds the previously produced file does not
detect «no change needed»: the merge step of `copy_to_final_destination`
bumps the name and copies the file again, so a second run performs an
additional copy to a fresh `_1` name. -/
theorem C4_counterexample :
    (copy_merge_files ["20240115_0915_site.jpg"] ["20240115_0915_site.jpg"]).1 =
      [("20240115_0915_site.jpg", "20240115_0915_site_1.jpg")] ∧
    (copy_merge_files ["20240115_0915_site.jpg"] ["20240115_0915_site.jpg"]).1 ≠ [] ∧
    "20240115_0915_site_1.jpg" ≠ "20240115_0915_site.jpg" := by
  decide

/-- C4 amended: the sort pipeline itself is idempotent — on a tree whose
top-level directories are all valid date buckets and whose root holds no
eligible media file (the state any completed run leaves behind), a second
run performs no action at all: Phase 1 produces no records, Phase 2
enumerates nothing, and the run's state, log and effect trace are
unchanged/empty.  The master pipeline's final copy step, by contrast, is
not idempotent (see the counterexample). -/
theorem C4_sort_idempotent (metaOf : String → FMeta) (convOf : String → ConvOutcome)
    (convBirthOf : String → Option DateTime) (convMtimeOf : String → DateTime)
    (st : RootState)
    (hdirs : ∀ d ∈ st.dirs, is_valid_date_folder d.name = true)
    (hroot : ∀ f ∈ st.rootFiles, eligibleMedia f = false) :
    sortRun false metaOf convOf convBirthOf convMtimeOf st = (st, [], []) ∧
    iter_media_files st = [] := by
  have hiter : iter_media_files st = [] :=
    List.filter_eq_nil_iff.mpr (fun f hf => by simp [hroot f hf])
  have hcons : consolidate_from_invalid_folders false st = (st, []) := by
    unfold consolidate_from_invalid_folders
    rw [consolidateDirs_all_valid st.dirs st.rootFiles _
      (fun d hd => Or.inr (hdirs d hd))]
  refine ⟨?_, hiter⟩
  simp only [sortRun, hcons, hiter]
  simp [phase2]

theorem C4_sort_idempotent_witness :
    sortRun false (fun _ => ⟨1, none, none, ⟨2024, 1, 1, 0, 0, 0⟩⟩)
        (fun _ => ConvOutcome.ok) (fun _ => none) (fun _ => ⟨2024, 1, 1, 0, 0, 0⟩)
        ⟨["sort_log.csv"], [⟨"20240115", ["x.jpg"], 0⟩]⟩ =
      (⟨["sort_log.csv"], [⟨"20240115", ["x.jpg"], 0⟩]⟩, [], []) ∧
    iter_media_files ⟨["sort_log.csv"], [⟨"20240115", ["x.jpg"], 0⟩]⟩ = [] :=
  C4_sort_idempotent _ _ _ _ _ (by decide) (by decide)

/-! ### Uniqueness of placed filenames (C8 machinery)

The invariant: the root listing, the bucket names and every directory's
file listing are duplicate-free, preserved by every placement because each
placement first probes the current listing. -/

def StateNodup (st : RootState) : Prop :=
  st.rootFiles.Nodup ∧ (st.dirs.map (fun d => d.name)).Nodup ∧
    ∀ d ∈ st.dirs, d.files.Nodup

theorem bumpName_free (existing : List String) (fname : String) :
    bumpName existing fname ∉ existing := by
  unfold bumpName
  by_cases hmem : fname ∈ existing
  · simp only [hmem, if_true]
    obtain ⟨k, hk, hfree⟩ := exists_free_cand existing (rsplitDot fname).1
      ("." ++ (rsplitDot fname).2) 1
    obtain ⟨j, _, heq, hfree', _⟩ := searchFree_spec existing _ _
      (existing.length + 1) 1 ⟨k, by omega, hfree⟩
    rw [heq]
    exact hfree'
  · simp [hmem]

theorem nodup_append_one {l : List String} {x : String} (h : l.Nodup) (hx : x ∉ l) :
    (l ++ [x]).Nodup := by
  refine List.Nodup.append h (by simp) ?_
  intro a ha hb
  simp only [List.mem_singleton] at hb
  exact hx (hb ▸ ha)

theorem find?_name_eq_of_nodup {dirs : List SubDir} {clean : String}
    (hn : (dirs.map (fun d => d.name)).Nodup) {d : SubDir} (hd : d ∈ dirs)
    (hname : d.name = clean) :
    dirs.find? (fun x => x.name = clean) = some d := by
  cases hfind : dirs.find? (fun x => x.name = clean) with
  | none =>
    have := List.find?_eq_none.mp hfind d hd
    simp [hname] at this
  | some d0 =>
    have hmem := List.mem_of_find?_eq_some hfind
    have hp := List.find?_some hfind
    simp only [decide_eq_true_eq] at hp
    have : d0 = d :=
      List.inj_on_of_nodup_map hn hmem hd (by rw [hp, hname])
    rw [this]

theorem ensure_folder_nodup {dirs : List SubDir} (dateStr : String)
    (hn : (dirs.map (fun d => d.name)).Nodup) (hf : ∀ d ∈ dirs, d.files.Nodup) :
    ((ensure_folder dirs dateStr).2.1.map (fun d => d.name)).Nodup ∧
    (∀ d ∈ (ensure_folder dirs dateStr).2.1, d.files.Nodup) := by
  unfold ensure_folder
  dsimp only
  split
  · exact ⟨hn, hf⟩
  · rename_i hfind
    constructor
    · rw [List.map_append]
      refine List.Nodup.append hn (by simp) ?_
      intro a ha hb
      simp only [List.map_cons, List.map_nil, List.mem_singleton] at hb
      obtain ⟨d, hd, hdn⟩ := List.mem_map.mp ha
      have hnd := List.find?_eq_none.mp hfind d hd
      simp only [decide_eq_true_eq] at hnd
      exact hnd (by rw [hdn, hb])
    · intro d hd
      rcases List.mem_append.mp hd with h | h
      · exact hf d h
      · simp only [List.mem_singleton] at h
        rw [h]
        exact List.nodup_nil

theorem addToBucket_nodup {dirs : List SubDir} {clean dst : String}
    (hn : (dirs.map (fun d => d.name)).Nodup) (hf : ∀ d ∈ dirs, d.files.Nodup)
    (hfree : dst ∉
      (((dirs.find? (fun d => d.name = clean)).map SubDir.files).getD [])) :
    ((addToBucket dirs clean dst).map (fun d => d.name)).Nodup ∧
    ∀ d ∈ addToBucket dirs clean dst, d.files.Nodup := by
  constructor
  · have hsame : (addToBucket dirs clean dst).map (fun d => d.name) =
        dirs.map (fun d => d.name) := by
      unfold addToBucket
      rw [List.map_map]
      apply List.map_congr_left
      intro d _
      by_cases h : d.name = clean <;> simp [h]
    rw [hsame]
    exact hn
  · intro d' hd'
    obtain ⟨d, hd, rfl⟩ := List.mem_map.mp hd'
    by_cases h : d.name = clean
    · rw [if_pos h]
      have hfind := find?_name_eq_of_nodup hn hd h
      rw [hfind] at hfree
      simp only [Option.map_some', Option.getD_some] at hfree
      exact nodup_append_one (hf d hd) hfree
    · rw [if_neg h]
      exact hf d hd

theorem process_file_rest_nodup (dryRun : Bool) (st1 : RootState)
    (fname current : String) (curMeta : FMeta) (converted : Bool)
    (h : StateNodup st1) :
    StateNodup (process_file_rest dryRun st1 fname current curMeta converted).1 := by
  obtain ⟨h1, h2, h3⟩ := h
  simp only [process_file_rest]
  obtain ⟨hn, hf⟩ := ensure_folder_nodup _ h2 h3
  split
  · exact ⟨h1, hn, hf⟩
  · refine ⟨h1.erase current, ?_, ?_⟩
    · exact (addToBucket_nodup hn hf (resolve_collision_free _ _)).1
    · exact (addToBucket_nodup hn hf (resolve_collision_free _ _)).2

theorem process_file_nodup (dryRun : Bool) (st : RootState) (fname : String)
    (m : FMeta) (conv : ConvOutcome) (cb : Option DateTime) (cm : DateTime)
    (h : StateNodup st) :
    StateNodup (process_file dryRun st fname m conv cb cm).1 := by
  obtain ⟨h1, h2, h3⟩ := h
  by_cases hz : m.size = 0
  · simp only [process_file, hz, if_pos rfl]
    exact ⟨h1, h2, h3⟩
  · have hjpg : get_jpg_output_path (rootEntryNames st) fname ∉ st.rootFiles :=
      fun hmem => get_jpg_output_path_free (rootEntryNames st) fname
        (List.mem_append_left _ hmem)
    by_cases hh : suffixLower fname ∈ CONVERT_TO_JPG <;>
      cases conv <;> cases dryRun <;>
        · simp only [process_file, hz, hh, if_true, if_false, if_neg, if_pos]
          first
          | exact process_file_rest_nodup _ _ _ _ _ _ ⟨h1, h2, h3⟩
          | exact process_file_rest_nodup _ _ _ _ _ _
              ⟨nodup_append_one h1 hjpg, h2, h3⟩
          | exact process_file_rest_nodup _ _ _ _ _ _
              ⟨(nodup_append_one h1 hjpg).erase fname, h2, h3⟩

theorem phase2_nodup (dryRun : Bool) (metaOf : String → FMeta)
    (convOf : String → ConvOutcome) (convBirthOf : String → Option DateTime)
    (convMtimeOf : String → DateTime) :
    ∀ (files : List String) (st : RootState), StateNodup st →
      StateNodup (phase2 dryRun metaOf convOf convBirthOf convMtimeOf st files).1 := by
  intro files
  induction files with
  | nil => intro st h; exact h
  | cons f fs ih =>
    intro st h
    simp only [phase2]
    exact ih _ (process_file_nodup _ _ _ _ _ _ _ h)

theorem drainFiles_nodup (dName : String) :
    ∀ (files rf dn : List String), rf.Nodup →
      (drainFiles false dName rf dn files).2.1.Nodup := by
  intro files
  induction files with
  | nil => intro rf dn h; exact h
  | cons f fs ih =>
    intro rf dn h
    cases he : eligibleMedia f with
    | true =>
      rw [drainFiles_cons_elig dName f fs rf dn he]
      exact ih _ dn (nodup_append_one h
        (fun hmem => resolve_collision_free (rf ++ dn) f (List.mem_append_left _ hmem)))
    | false =>
      rw [drainFiles_cons_inelig dName f fs rf dn he]
      exact ih rf dn h

theorem consolidateDirs_state_nodup :
    ∀ (ds : List SubDir) (rf dn : List String),
      rf.Nodup → (ds.map (fun d => d.name)).Nodup → (∀ d ∈ ds, d.files.Nodup) →
      (consolidateDirs false ds rf dn).1.Nodup ∧
      ((consolidateDirs false ds rf dn).2.1.map (fun d => d.name)).Nodup ∧
      (∀ d ∈ (consolidateDirs false ds rf dn).2.1, d.files.Nodup) ∧
      ((consolidateDirs false ds rf dn).2.1.map (fun d => d.name)) ⊆
        ds.map (fun d => d.name) := by
  intro ds
  induction ds with
  | nil =>
    intro rf dn h1 _ _
    exact ⟨h1, by simp [consolidateDirs], by simp [consolidateDirs],
      by simp [consolidateDirs]⟩
  | cons d ds ih =>
    intro rf dn h1 h2 h3
    have h2' : (ds.map (fun d => d.name)).Nodup := (List.nodup_cons.mp h2).2
    have h2head : d.name ∉ ds.map (fun d => d.name) := (List.nodup_cons.mp h2).1
    have h3' : ∀ d0 ∈ ds, d0.files.Nodup := fun d0 hd0 => h3 d0 (List.mem_cons_of_mem _ hd0)
    by_cases hhv : is_hidden d.name = true ∨ is_valid_date_folder d.name = true
    · have hone := consolidateOne_hidden_or_valid rf dn d hhv
      obtain ⟨ih1, ih2, ih3, ih4⟩ := ih rf dn h1 h2' h3'
      simp only [consolidateDirs, hone]
      refine ⟨ih1, ?_, ?_, ?_⟩
      · simp only [List.map_cons]
        exact List.nodup_cons.mpr ⟨fun hc => h2head (ih4 hc), ih2⟩
      · intro d0 hd0
        rcases List.mem_cons.mp hd0 with rfl | hmem
        · exact h3 d0 (List.mem_cons_self _ _)
        · exact ih3 d0 hmem
      · simp only [List.map_cons]
        intro a ha
        rcases List.mem_cons.mp ha with rfl | hmem
        · exact List.mem_cons_self _ _
        · exact List.mem_cons_of_mem _ (ih4 hmem)
    · have hh : is_hidden d.name = false := by
        cases hcase : is_hidden d.name
        · rfl
        · exact absurd (Or.inl hcase) hhv
      have hv : is_valid_date_folder d.name = false := by
        cases hcase : is_valid_date_folder d.name
        · rfl
        · exact absurd (Or.inr hcase) hhv
      have hdrain := drainFiles_nodup d.name d.files rf dn h1
      by_cases hdr : (drainFiles false d.name rf dn d.files).1.isEmpty = true ∧
          d.nonFileEntries = 0
      · have hone := consolidateOne_invalid_drained rf dn d hh hv hdr
        obtain ⟨ih1, ih2, ih3, ih4⟩ :=
          ih (drainFiles false d.name rf dn d.files).2.1 (dn.erase d.name)
            hdrain h2' h3'
        simp only [consolidateDirs, hone]
        exact ⟨ih1, ih2, ih3, fun a ha => List.mem_cons_of_mem _ (ih4 ha)⟩
      · have hone := consolidateOne_invalid_kept rf dn d hh hv hdr
        obtain ⟨ih1, ih2, ih3, ih4⟩ :=
          ih (drainFiles false d.name rf dn d.files).2.1 dn hdrain h2' h3'
        simp only [consolidateDirs, hone]
        refine ⟨ih1, ?_, ?_, ?_⟩
        · simp only [List.map_cons]
          exact List.nodup_cons.mpr ⟨fun hc => h2head (ih4 hc), ih2⟩
        · intro d0 hd0
          rcases List.mem_cons.mp hd0 with rfl | hmem
          · rw [(drainFiles_live d.name d.files rf dn).1]
            exact (List.filter_sublist _).nodup (h3 d (List.mem_cons_self _ _))
          · exact ih3 d0 hmem
        · simp only [List.map_cons]
          intro a ha
          rcases List.mem_cons.mp ha with rfl | hmem
          · exact List.mem_cons_self _ _
          · exact List.mem_cons_of_mem _ (ih4 hmem)

theorem copy_merge_files_nodup :
    ∀ (srcs dest : List String), dest.Nodup → (copy_merge_files dest srcs).2.Nodup := by
  intro srcs
  induction srcs with
  | nil => intro dest h; exact h
  | cons f fs ih =>
    intro dest h
    simp only [copy_merge_files]
    exact ih _ (nodup_append_one h (bumpName_free dest f))

theorem names_nodup_append_new (dirs : List SubDir) (df : String)
    (hn : (dirs.map (fun d => d.name)).Nodup)
    (hnone : dirs.find? (fun d => d.name = df) = none) :
    ((dirs ++ [(⟨df, [], 0⟩ : SubDir)]).map (fun d => d.name)).Nodup := by
  rw [List.map_append]
  refine List.Nodup.append hn (by simp) ?_
  intro a ha hb
  simp only [List.map_cons, List.map_nil, List.mem_singleton] at hb
  obtain ⟨d, hd, hdn⟩ := List.mem_map.mp ha
  have hnd := List.find?_eq_none.mp hnone d hd
  simp only [decide_eq_true_eq] at hnd
  exact hnd (by rw [hdn, hb])

theorem files_nodup_append_new (dirs : List SubDir) (df : String)
    (hf : ∀ d ∈ dirs, d.files.Nodup) :
    ∀ d ∈ dirs ++ [(⟨df, [], 0⟩ : SubDir)], d.files.Nodup := by
  intro d hd
  rcases List.mem_append.mp hd with h | h
  · exact hf d h
  · simp only [List.mem_singleton] at h
    rw [h]
    exact List.nodup_nil

theorem psp_mb0 (rf : List String) (dirs : List SubDir) (df : String)
    (h1 : rf.Nodup) (h2 : (dirs.map (fun d => d.name)).Nodup)
    (h3 : ∀ d ∈ dirs, d.files.Nodup)
    (hn : (dirs.find? (fun d => d.name = df)).isNone = true) :
    StateNodup ⟨rf, dirs ++ [(⟨df, [], 0⟩ : SubDir)]⟩ := by
  rw [Option.isNone_iff_eq_none] at hn
  exact ⟨h1, names_nodup_append_new dirs df h2 hn, files_nodup_append_new dirs df h3⟩

theorem psp_mb (rf : List String) (dirs : List SubDir) (df fn : String)
    (h1 : rf.Nodup) (h2 : (dirs.map (fun d => d.name)).Nodup)
    (h3 : ∀ d ∈ dirs, d.files.Nodup)
    (hn : (dirs.find? (fun d => d.name = df)).isNone = true) :
    StateNodup ⟨rf, addToBucket (dirs ++ [(⟨df, [], 0⟩ : SubDir)]) df
      (bumpName (((dirs.find? (fun d => d.name = df)).map SubDir.files).getD []) fn)⟩ := by
  rw [Option.isNone_iff_eq_none] at hn
  have hn2 := names_nodup_append_new dirs df h2 hn
  have hf2 := files_nodup_append_new dirs df h3
  have hfree : bumpName (((dirs.find? (fun d => d.name = df)).map SubDir.files).getD []) fn ∉
      ((((dirs ++ [(⟨df, [], 0⟩ : SubDir)]).find?
          (fun d => d.name = df)).map SubDir.files).getD []) := by
    rw [List.find?_append, hn, Option.none_or]
    have hsingle : List.find? (fun d => decide (d.name = df))
        [(⟨df, [], 0⟩ : SubDir)] = some ⟨df, [], 0⟩ := by
      simp [List.find?]
    rw [hsingle]
    simp
  exact ⟨h1, (addToBucket_nodup hn2 hf2 hfree).1, (addToBucket_nodup hn2 hf2 hfree).2⟩

theorem psp_eb (rf : List String) (dirs : List SubDir) (df fn : String)
    (h1 : rf.Nodup) (h2 : (dirs.map (fun d => d.name)).Nodup)
    (h3 : ∀ d ∈ dirs, d.files.Nodup) :
    StateNodup ⟨rf, addToBucket dirs df
      (bumpName (((dirs.find? (fun d => d.name = df)).map SubDir.files).getD []) fn)⟩ :=
  ⟨h1, (addToBucket_nodup h2 h3 (bumpName_free _ _)).1,
    (addToBucket_nodup h2 h3 (bumpName_free _ _)).2⟩

theorem process_single_photo_nodup (dryRun : Bool) (temp : RootState) (photo : MFile)
    (heicOk : Bool) (convBirth : Option DateTime) (convMtime : DateTime)
    (tags : List String) (targetExt : Option String) (fmtConv : ConvOutcome)
    (h : StateNodup temp) :
    StateNodup (process_single_photo dryRun temp photo heicOk convBirth convMtime
      tags targetExt fmtConv).2.1 := by
  obtain ⟨h1, h2, h3⟩ := h
  have hjpg : get_jpg_output_path (rootEntryNames temp) photo.name ∉ temp.rootFiles :=
    fun hmem => get_jpg_output_path_free (rootEntryNames temp) photo.name
      (List.mem_append_left _ hmem)
  have h1' := nodup_append_one h1 hjpg
  simp only [process_single_photo]
  by_cases hh : suffixLower photo.name ∈ CONVERT_TO_JPG <;>
    cases dryRun <;> cases heicOk <;>
      simp only [hh, if_true, if_false, ite_true, ite_false, Bool.false_eq_true,
        eq_self_iff_true] <;>
      try dsimp only
  all_goals repeat' split
  all_goals try dsimp only
  all_goals
    first
    | exact ⟨h1, h2, h3⟩
    | exact ⟨h1', h2, h3⟩
    | exact psp_eb _ _ _ _ h1 h2 h3
    | exact psp_eb _ _ _ _ h1' h2 h3
    | (rename_i hmiss
       first
       | exact psp_mb0 _ _ _ h1 h2 h3 hmiss
       | exact psp_mb0 _ _ _ h1' h2 h3 hmiss
       | exact psp_mb _ _ _ _ h1 h2 h3 hmiss
       | exact psp_mb _ _ _ _ h1' h2 h3 hmiss)

theorem masterRun_nodup (dryRun : Bool) (targetExt : Option String) :
    ∀ (inputs : List PspInput) (temp : RootState), StateNodup temp →
      StateNodup (masterRun dryRun targetExt temp inputs).1 := by
  intro inputs
  induction inputs with
  | nil => intro temp h; exact h
  | cons i is ih =>
    intro temp h
    simp only [masterRun]
    exact ih _ (process_single_photo_nodup _ _ _ _ _ _ _ _ _ h)

theorem sortRun_nodup (metaOf : String → FMeta) (convOf : String → ConvOutcome)
    (convBirthOf : String → Option DateTime) (convMtimeOf : String → DateTime)
    (st : RootState) (h : StateNodup st) :
    StateNodup (sortRun false metaOf convOf convBirthOf convMtimeOf st).1 := by
  obtain ⟨h1, h2, h3⟩ := h
  have hc := consolidateDirs_state_nodup st.dirs st.rootFiles
    (st.dirs.map (fun d => d.name)) h1 h2 h3
  simp only [sortRun, consolidate_from_invalid_folders]
  exact phase2_nodup false _ _ _ _ _ _ ⟨hc.1, hc.2.1, hc.2.2.1⟩

/-- C8: every placement of the pipeline probes the directory's current
contents first (`resolve_collision` in the sorter, the inline bump loops in
the master processor and the project copier), so a batch run started from a
duplicate-free tree leaves every single directory — the batch root, each
date bucket, a merge destination — with pairwise-distinct filenames. -/
theorem C8_unique_names (metaOf : String → FMeta) (convOf : String → ConvOutcome)
    (convBirthOf : String → Option DateTime) (convMtimeOf : String → DateTime)
    (st : RootState) (dryRun : Bool) (targetExt : Option String)
    (temp : RootState) (inputs : List PspInput)
    (destFiles srcs : List String)
    (hst : StateNodup st) (htemp : StateNodup temp) (hdest : destFiles.Nodup) :
    StateNodup (sortRun false metaOf convOf convBirthOf convMtimeOf st).1 ∧
    StateNodup (masterRun dryRun targetExt temp inputs).1 ∧
    (copy_merge_files destFiles srcs).2.Nodup :=
  ⟨sortRun_nodup metaOf convOf convBirthOf convMtimeOf st hst,
    masterRun_nodup dryRun targetExt inputs temp htemp,
    copy_merge_files_nodup srcs destFiles hdest⟩

theorem C8_unique_names_witness :
    StateNodup ⟨["a.jpg", "b.jpg"], [⟨"20240101", ["c.jpg"], 0⟩]⟩ ∧
    StateNodup ⟨[], []⟩ ∧ (["x.jpg"] : List String).Nodup ∧
    (StateNodup (sortRun false (fun _ => ⟨1, none, none, ⟨2024, 1, 1, 10, 30, 0⟩⟩)
        (fun _ => ConvOutcome.ok) (fun _ => none) (fun _ => ⟨2024, 1, 1, 10, 30, 0⟩)
        ⟨["a.jpg", "b.jpg"], [⟨"20240101", ["c.jpg"], 0⟩]⟩).1 ∧
      StateNodup (masterRun false none ⟨[], []⟩
        [⟨⟨"a.heic", none, none, ⟨2024, 1, 1, 10, 30, 0⟩⟩, true, none,
          ⟨2024, 1, 1, 10, 30, 0⟩, ["site"], ConvOutcome.ok⟩]).1 ∧
      (copy_merge_files ["x.jpg"] ["x.jpg", "y.jpg"]).2.Nodup) :=
  ⟨⟨by decide, by decide, by decide⟩, ⟨by decide, by decide, by decide⟩, by decide,
    C8_unique_names (fun _ => ⟨1, none, none, ⟨2024, 1, 1, 10, 30, 0⟩⟩)
      (fun _ => ConvOutcome.ok) (fun _ => none) (fun _ => ⟨2024, 1, 1, 10, 30, 0⟩)
      ⟨["a.jpg", "b.jpg"], [⟨"20240101", ["c.jpg"], 0⟩]⟩ false none ⟨[], []⟩
      [⟨⟨"a.heic", none, none, ⟨2024, 1, 1, 10, 30, 0⟩⟩, true, none,
        ⟨2024, 1, 1, 10, 30, 0⟩, ["site"], ConvOutcome.ok⟩]
      ["x.jpg"] ["x.jpg", "y.jpg"] ⟨by decide, by decide, by decide⟩
      ⟨by decide, by decide, by decide⟩ (by decide)⟩

end PF
